import Mathlib

/-!
Verification of the base-36 fractional-index algebra, the rebalancing
planner, the cell operations and the event materializers of the notebook
schema. The definitions below are shallow embeddings of the TypeScript
source: strings are lists of characters, JavaScript exceptions are the
`Except` monad, and the injectable jitter provider is a stream of
pre-drawn random decisions.
-/

/-- Index strings are modelled as lists of characters; JavaScript string
comparison on the base-36 alphabet is byte-wise, i.e. lexicographic on the
character lists. -/
abbrev Str := List Char

instance {ε α : Type} [DecidableEq ε] [DecidableEq α] : DecidableEq (Except ε α) := fun x y =>
  match x, y with
  | .ok a, .ok b => if h : a = b then .isTrue (by rw [h]) else .isFalse (by simp [h])
  | .error e, .error f => if h : e = f then .isTrue (by rw [h]) else .isFalse (by simp [h])
  | .ok _, .error _ => .isFalse (by simp)
  | .error _, .ok _ => .isFalse (by simp)

/-- The error taxonomy of the index algebra: `Invalid character`,
`Value out of range`, `Invalid range: a >= b`, `No string exists between`,
and the internal unreachable-index errors. -/
inductive Err where
  | invalidChar : Err
  | invalidValue : Err
  | invalidRange : Err
  | emptyInterval : Err
  | other : Err
deriving DecidableEq, Repr

/-- `BASE36_DIGITS = "0123456789abcdefghijklmnopqrstuvwxyz"`. -/
def digitsList : Str := "0123456789abcdefghijklmnopqrstuvwxyz".toList

/-- `charToValue`: index of the character in the digit alphabet, throwing
`Invalid character` when absent (`indexOf === -1`). -/
def charToValue (c : Char) : Except Err Nat :=
  if digitsList.indexOf c < 36 then .ok (digitsList.indexOf c) else .error .invalidChar

/-- `valueToChar`: the digit character for a value, throwing
`Value out of range` outside `[0, 36)`. -/
def valueToChar (v : Nat) : Except Err Char :=
  if h : v < digitsList.length then .ok (digitsList.get ⟨v, h⟩) else .error .invalidValue

/-- Total variant of `valueToChar` used only to state theorems. -/
def dChar (v : Nat) : Char := digitsList.getD v ' '

/-- JavaScript `<` on strings: lexicographic comparison of the character
sequences, a proper prefix being smaller. -/
def strLtB : Str → Str → Bool
  | [], [] => false
  | [], _ :: _ => true
  | _ :: _, [] => false
  | a :: as, b :: bs => if a < b then true else if b < a then false else strLtB as bs

/-- Length of the run of copies of `c` at the front of a list (the
zero-scan and trailing-`z` scan loops of the source). -/
def countLeading (c : Char) : Str → Nat
  | [] => 0
  | x :: xs => if x = c then countLeading c xs + 1 else 0

/-- First position at which two strings differ (the common-prefix scan
loop of `generateKeyBetween`). -/
def commonPrefixLen : Str → Str → Nat
  | x :: xs, y :: ys => if x = y then commonPrefixLen xs ys + 1 else 0
  | _, _ => 0

/-- `generateKeyAfter(a)`: `"m"` for empty input; strip trailing `z`s and
bump the last non-`z` character, or append the midpoint character `"h"`. -/
def generateKeyAfter (a : Str) : Except Err Str :=
  if a.isEmpty then .ok ['m']
  else if countLeading 'z' a.reverse = a.length then .ok (a ++ ['h'])
  else
    match a.get? (a.length - 1 - countLeading 'z' a.reverse) with
    | none => .error .other
    | some ch => do
        let v ← charToValue ch
        if v < 34 then do
          let c ← valueToChar (v + 1)
          return a.take (a.length - 1 - countLeading 'z' a.reverse) ++ [c]
        else return a ++ ['h']

/-- `generateKeyBefore(b)`: `"m"` for empty input; prepend a zero when `b`
is all zeros, otherwise halve the first non-zero character. -/
def generateKeyBefore (b : Str) : Except Err Str :=
  if b.isEmpty then .ok ['m']
  else if countLeading '0' b = b.length then .ok ('0' :: b)
  else
    match b.get? (countLeading '0' b) with
    | none => .error .other
    | some ch => do
        let v ← charToValue ch
        if countLeading '0' b = 0 && v > 1 then do
          let c ← valueToChar (v / 2)
          return [c]
        else if v > 1 then do
          let c ← valueToChar (v / 2)
          return b.take (countLeading '0' b) ++ [c]
        else return b.take (countLeading '0' b) ++ ['0', 'h']

/-- The `i === a.length` branch of `generateKeyBetween`: `a` is a proper
prefix of `b` and `bs = b.drop a.length` is what remains of `b`. -/
def gkbCaseA : Str → Str → Except Err Str
  | _, [] => .error .other
  | a, nc :: rest => do
      let nv ← charToValue nc
      if nv > 0 then
        if nv / 2 > 0 then do
          let c ← valueToChar (nv / 2)
          return a ++ [c]
        else return a ++ ['0']
      else
        if rest.isEmpty then .error .emptyInterval
        else
          if countLeading '0' (nc :: rest) = (nc :: rest).length ∧
              countLeading '0' (nc :: rest) > 1 then
            return a ++ List.replicate (countLeading '0' (nc :: rest) / 2) '0'
          else if countLeading '0' (nc :: rest) < (nc :: rest).length then
            match (nc :: rest).get? (countLeading '0' (nc :: rest)) with
            | none => .error .other
            | some nc2 => do
                let nv2 ← charToValue nc2
                if nv2 > 0 then do
                  let c ← valueToChar (nv2 / 2)
                  return a ++ List.replicate (countLeading '0' (nc :: rest)) '0' ++ [c]
                else .error .emptyInterval
          else .error .emptyInterval

/-- The divergent-character branch of `generateKeyBetween`:
`a = pre ++ ac :: asuf` and `b = pre ++ bc :: _` with `i = pre.length` the
first differing position. -/
def gkbCaseB (pre : Str) (ac : Char) (asuf : Str) (bc : Char) : Except Err Str := do
  let av ← charToValue ac
  let bv ← charToValue bc
  if bv - av > 1 then do
    let c ← valueToChar ((av + bv) / 2)
    return pre ++ [c] ++ asuf
  else
    if asuf.isEmpty then return pre ++ [ac] ++ ['h']
    else do
      let sfx ← generateKeyAfter asuf
      return pre ++ [ac] ++ sfx

/-- The main body of `generateKeyBetween` once both bounds are known to be
non-empty strings; `generateKeyBetween` treats `none` and the empty string
as absent bounds. -/
def gkbMain (sa sb : Str) : Except Err Str :=
  if !strLtB sa sb then .error .invalidRange
  else if commonPrefixLen sa sb = sa.length then
    gkbCaseA sa (sb.drop (commonPrefixLen sa sb))
  else if commonPrefixLen sa sb = sb.length then .error .other
  else
    match sa.get? (commonPrefixLen sa sb), sb.get? (commonPrefixLen sa sb) with
    | some ac, some bc =>
        gkbCaseB (sa.take (commonPrefixLen sa sb)) ac
          (sa.drop (commonPrefixLen sa sb + 1)) bc
    | _, _ => .error .other

def generateKeyBetween (a b : Option Str) : Except Err Str :=
  if (a.getD []).isEmpty && (b.getD []).isEmpty then .ok ['m']
  else if (a.getD []).isEmpty then generateKeyBefore (b.getD [])
  else if (b.getD []).isEmpty then generateKeyAfter (a.getD [])
  else gkbMain (a.getD []) (b.getD [])

/-- One pre-drawn draw of the injectable jitter provider: `extend` models
`random() < 0.3` and `pick` models `randomInt(BASE)`. -/
structure JitterStep where
  extend : Bool
  pick : Nat
deriving DecidableEq, Repr

/-- The zero provider `{ random: () => 0, randomInt: () => 0 }` used by
`needsRebalancing` (`0 < 0.3`, so `extend` is true). -/
def zeroJitterStep : JitterStep := ⟨true, 0⟩

/-- `(!a || candidate > a)`: the lower-bound half of the jitter validity
check (truthiness: absent and empty bounds pass). -/
def jitterOkLow (a : Option Str) (candidate : Str) : Bool :=
  match a with
  | none => true
  | some s => s.isEmpty || strLtB s candidate

/-- `(!b || candidate < b)`: the upper-bound half of the jitter validity
check. -/
def jitterOkHigh (b : Option Str) (candidate : Str) : Bool :=
  match b with
  | none => true
  | some s => s.isEmpty || strLtB candidate s

def fractionalIndexBetween (a b : Option Str) (j : JitterStep) : Except Err Str := do
  let key ← generateKeyBetween a b
  if j.extend && key.length < 10 then do
    let c ← valueToChar j.pick
    if jitterOkLow a (key ++ [c]) && jitterOkHigh b (key ++ [c]) then
      return key ++ [c]
    else return key
  else return key

/-- All characters of the string are base-36 digits (the character loop of
`isValidFractionalIndex`). -/
def allDigits (s : Str) : Bool := s.all (fun c => digitsList.contains c)

/-- `isValidFractionalIndex`: non-empty and all characters base-36. -/
def isValidFractionalIndex (s : Str) : Bool :=
  !s.isEmpty && allDigits s

/-! ### Order and digit lemmas -/

theorem char_eq_of_not_lt {x y : Char} (h1 : ¬x < y) (h2 : ¬y < x) : x = y := by
  rcases Nat.lt_trichotomy x.val.toNat y.val.toNat with h | h | h
  · exact absurd (Char.lt_iff_val_lt_val.mpr h) h1
  · exact Char.ext (UInt32.ext h)
  · exact absurd (Char.lt_iff_val_lt_val.mpr h) h2

theorem char_lt_trans {x y z : Char} (h1 : x < y) (h2 : y < z) : x < z :=
  Char.lt_iff_val_lt_val.mpr
    (Nat.lt_trans (Char.lt_iff_val_lt_val.mp h1) (Char.lt_iff_val_lt_val.mp h2))

theorem char_lt_irrefl (x : Char) : ¬x < x := fun h =>
  Nat.lt_irrefl _ (Char.lt_iff_val_lt_val.mp h)

theorem char_lt_asymm {x y : Char} (h : x < y) : ¬y < x := fun h' =>
  Nat.lt_irrefl _ (Nat.lt_trans (Char.lt_iff_val_lt_val.mp h) (Char.lt_iff_val_lt_val.mp h'))

theorem digits_pairwise : digitsList.Pairwise (· < ·) := by decide

theorem digits_length : digitsList.length = 36 := by decide

/-- A generic fact about `indexOf`: when the index is within bounds the
element is found there. -/
theorem indexOf_get?_self {l : List Char} {c : Char} (h : l.indexOf c < l.length) :
    l.get? (l.indexOf c) = some c := by
  rw [List.get?_eq_getElem?, List.getElem?_eq_getElem h]
  exact congrArg some (List.indexOf_get h)

theorem charToValue_ok {c : Char} {v : Nat} (h : charToValue c = .ok v) :
    v < 36 ∧ digitsList.get? v = some c := by
  unfold charToValue at h
  split at h
  · cases h
    refine ⟨by assumption, indexOf_get?_self ?_⟩
    rw [digits_length]; assumption
  · cases h

theorem valueToChar_ok {v : Nat} {c : Char} (h : valueToChar v = .ok c) :
    v < 36 ∧ digitsList.get? v = some c := by
  unfold valueToChar at h
  split at h
  · cases h
    refine ⟨by simpa [digits_length] using ‹v < digitsList.length›, ?_⟩
    rw [List.get?_eq_getElem?, List.getElem?_eq_getElem ‹v < digitsList.length›]
    simp [List.get_eq_getElem]
  · cases h

/-- Digit characters are ordered like their values. -/
theorem digit_lt_of_val_lt {v w : Nat} {c d : Char} (hv : digitsList.get? v = some c)
    (hw : digitsList.get? w = some d) (hvw : v < w) : c < d := by
  have hv' : v < digitsList.length := by
    by_contra h
    rw [List.get?_eq_getElem?, List.getElem?_eq_none (by omega)] at hv
    cases hv
  have hw' : w < digitsList.length := by
    by_contra h
    rw [List.get?_eq_getElem?, List.getElem?_eq_none (by omega)] at hw
    cases hw
  have := List.pairwise_iff_getElem.mp digits_pairwise v w hv' hw' hvw
  rw [List.get?_eq_getElem?, List.getElem?_eq_getElem hv'] at hv
  rw [List.get?_eq_getElem?, List.getElem?_eq_getElem hw'] at hw
  cases hv; cases hw; exact this

/-- Conversely, character order gives value order for valid digits. -/
theorem val_lt_of_digit_lt {v w : Nat} {c d : Char} (hv : digitsList.get? v = some c)
    (hw : digitsList.get? w = some d) (hcd : c < d) : v < w := by
  rcases Nat.lt_trichotomy v w with h | h | h
  · exact h
  · subst h
    rw [hv] at hw
    cases hw
    exact absurd hcd (char_lt_irrefl _)
  · exact absurd (digit_lt_of_val_lt hw hv h) (char_lt_asymm hcd)

theorem strLtB_nil (t : Str) (h : t ≠ []) : strLtB [] t = true := by
  cases t with
  | nil => exact absurd rfl h
  | cons x xs => rfl

theorem strLtB_irrefl (s : Str) : strLtB s s = false := by
  induction s with
  | nil => rfl
  | cons x xs ih => simp [strLtB, char_lt_irrefl x, ih]

/-- A proper extension is strictly greater. -/
theorem strLtB_self_append (s t : Str) (h : t ≠ []) : strLtB s (s ++ t) = true := by
  induction s with
  | nil => simpa using strLtB_nil t h
  | cons x xs ih => simpa [strLtB, char_lt_irrefl x] using ih

/-- Two strings sharing a prefix compare by the first differing character. -/
theorem strLtB_append_lt (u : Str) {x y : Char} (v w : Str) (h : x < y) :
    strLtB (u ++ x :: v) (u ++ y :: w) = true := by
  induction u with
  | nil => simp [strLtB, h]
  | cons z zs ih => simpa [strLtB, char_lt_irrefl z] using ih

theorem strLtB_append_left (p : Str) {u v : Str} (h : strLtB u v = true) :
    strLtB (p ++ u) (p ++ v) = true := by
  induction p with
  | nil => simpa using h
  | cons z zs ih => simpa [strLtB, char_lt_irrefl z] using ih

theorem strLtB_trans : ∀ {a b c : Str}, strLtB a b = true → strLtB b c = true →
    strLtB a c = true
  | [], _ :: _, _ :: _, _, _ => rfl
  | [], [], _, h, _ => by cases h
  | [], _ :: _, [], _, h => by cases h
  | _ :: _, [], _, h, _ => by cases h
  | _ :: _, _ :: _, [], _, h => by cases h
  | a :: as, b :: bs, c :: cs, h1, h2 => by
      simp only [strLtB] at h1 h2 ⊢
      by_cases hab : a < b
      · by_cases hbc : b < c
        · simp [char_lt_trans hab hbc]
        · by_cases hcb : c < b
          · simp [hbc, hcb] at h2
          · have : b = c := char_eq_of_not_lt hbc hcb
            subst this
            simp [hab]
      · by_cases hba : b < a
        · simp [hab, hba] at h1
        · have heq : a = b := char_eq_of_not_lt hab hba
          subst heq
          simp only [if_neg hab, if_neg hba] at h1
          by_cases hac : a < c
          · simp [hac]
          · by_cases hca : c < a
            · simp [hac, hca] at h2
            · have heq2 : a = c := char_eq_of_not_lt hac hca
              subst heq2
              simp only [if_neg hac] at h2 ⊢
              exact strLtB_trans h1 h2

/-! ### Scan-helper lemmas -/

theorem except_bind_ok {ε α β : Type} (v : α) (f : α → Except ε β) :
    (Except.ok v >>= f : Except ε β) = f v := rfl

theorem except_bind_err {ε α β : Type} (e : ε) (f : α → Except ε β) :
    (Except.error e >>= f : Except ε β) = .error e := rfl

theorem except_pure {ε α : Type} (v : α) : (pure v : Except ε α) = .ok v := rfl

theorem countLeading_cons_self (c : Char) (xs : Str) :
    countLeading c (c :: xs) = countLeading c xs + 1 := by simp [countLeading]

theorem countLeading_cons_ne {x c : Char} (h : x ≠ c) (xs : Str) :
    countLeading c (x :: xs) = 0 := by simp [countLeading, h]

theorem commonPrefixLen_cons_self (x : Char) (xs ys : Str) :
    commonPrefixLen (x :: xs) (x :: ys) = commonPrefixLen xs ys + 1 := by
  simp [commonPrefixLen]

theorem commonPrefixLen_cons_ne {x y : Char} (h : x ≠ y) (xs ys : Str) :
    commonPrefixLen (x :: xs) (y :: ys) = 0 := by simp [commonPrefixLen, h]

theorem countLeading_le (c : Char) (l : Str) : countLeading c l ≤ l.length := by
  induction l with
  | nil => simp [countLeading]
  | cons x xs ih =>
      by_cases hx : x = c
      · simp [countLeading, hx]
        omega
      · simp [countLeading, hx]

theorem countLeading_take (c : Char) (l : Str) :
    l.take (countLeading c l) = List.replicate (countLeading c l) c := by
  induction l with
  | nil => simp [countLeading]
  | cons x xs ih =>
      simp only [countLeading]
      split
      · subst ‹x = c›
        simp [List.replicate_succ, ih]
      · simp

theorem countLeading_get {c : Char} {l : Str} (h : countLeading c l < l.length) :
    ∃ d, l.get? (countLeading c l) = some d ∧ d ≠ c := by
  induction l with
  | nil => simp at h
  | cons x xs ih =>
      by_cases hx : x = c
      · subst hx
        rw [countLeading_cons_self] at h ⊢
        simp only [List.length_cons] at h
        obtain ⟨d, hd, hdc⟩ := ih (by omega)
        exact ⟨d, by simpa using hd, hdc⟩
      · refine ⟨x, ?_, hx⟩
        simp [countLeading_cons_ne hx]

theorem countLeading_eq_length {c : Char} {l : Str} (h : countLeading c l = l.length) :
    l = List.replicate l.length c := by
  have := countLeading_take c l
  rw [h] at this
  simpa using this

theorem commonPrefixLen_le_left (a b : Str) : commonPrefixLen a b ≤ a.length := by
  induction a generalizing b with
  | nil => simp [commonPrefixLen]
  | cons x xs ih =>
      cases b with
      | nil => simp [commonPrefixLen]
      | cons y ys =>
          by_cases hxy : x = y
          · have := ih ys
            simp [commonPrefixLen, hxy]
            omega
          · simp [commonPrefixLen, hxy]

theorem commonPrefixLen_le_right (a b : Str) : commonPrefixLen a b ≤ b.length := by
  induction a generalizing b with
  | nil => simp [commonPrefixLen]
  | cons x xs ih =>
      cases b with
      | nil => simp [commonPrefixLen]
      | cons y ys =>
          by_cases hxy : x = y
          · have := ih ys
            simp [commonPrefixLen, hxy]
            omega
          · simp [commonPrefixLen, hxy]

theorem commonPrefixLen_take (a b : Str) :
    a.take (commonPrefixLen a b) = b.take (commonPrefixLen a b) := by
  induction a generalizing b with
  | nil => simp [commonPrefixLen]
  | cons x xs ih =>
      cases b with
      | nil => simp [commonPrefixLen]
      | cons y ys =>
          simp only [commonPrefixLen]
          split
          · subst ‹x = y›
            simp [ih ys]
          · simp

/-- When the common prefix covers all of `a`, `b` is `a` followed by its
remainder. -/
theorem append_drop_of_cpl_eq_left {a b : Str} (h : commonPrefixLen a b = a.length) :
    b = a ++ b.drop a.length := by
  have h1 := commonPrefixLen_take a b
  rw [h] at h1
  simp only [List.take_length] at h1
  conv_lhs => rw [← List.take_append_drop a.length b]
  rw [← h1]

/-- At the first differing position of two `<`-related strings the
characters strictly compare. -/
theorem strLtB_cpl_get : ∀ {a b : Str}, strLtB a b = true →
    commonPrefixLen a b < a.length →
    ∃ x y, a.get? (commonPrefixLen a b) = some x ∧ b.get? (commonPrefixLen a b) = some y ∧ x < y
  | [], _, _, h => by simp at h
  | _ :: _, [], h, _ => by cases h
  | x :: xs, y :: ys, h, hlen => by
      by_cases hxy : x = y
      · subst hxy
        rw [commonPrefixLen_cons_self] at hlen ⊢
        simp only [List.length_cons] at hlen
        simp only [strLtB, if_neg (char_lt_irrefl x)] at h
        obtain ⟨u, v, hu, hv, huv⟩ := strLtB_cpl_get h (by omega)
        exact ⟨u, v, by simpa using hu, by simpa using hv, huv⟩
      · rw [commonPrefixLen_cons_ne hxy]
        refine ⟨x, y, rfl, rfl, ?_⟩
        simp only [strLtB] at h
        by_cases hlt : x < y
        · exact hlt
        · by_cases hgt : y < x
          · simp [hlt, hgt] at h
          · exact absurd (char_eq_of_not_lt hlt hgt) hxy

/-- Decomposition of a list at an in-bounds position. -/
theorem decomp_at {l : Str} {i : Nat} {c : Char} (hc : l.get? i = some c) :
    l = l.take i ++ c :: l.drop (i + 1) := by
  have hi : i < l.length := by
    by_contra h
    rw [List.get?_eq_getElem?, List.getElem?_eq_none (by omega)] at hc
    cases hc
  rw [List.get?_eq_getElem?, List.getElem?_eq_getElem hi] at hc
  cases hc
  conv_lhs => rw [← List.take_append_drop i l]
  rw [List.drop_eq_getElem_cons hi]

/-! ### `generateKeyAfter` and `generateKeyBefore` lemmas -/

theorem generateKeyAfter_gt {x k : Str} (h : generateKeyAfter x = .ok k) :
    strLtB x k = true := by
  unfold generateKeyAfter at h
  split at h
  · rename_i hxe
    cases h
    have hx : x = [] := by simpa [List.isEmpty_iff] using hxe
    subst hx
    rfl
  · split at h
    · cases h
      exact strLtB_self_append x ['h'] (by simp)
    · split at h
      · cases h
      · rename_i ch hch
        cases hcv : charToValue ch with
        | error e => rw [hcv] at h; cases h
        | ok v =>
            rw [hcv] at h
            simp only [except_bind_ok] at h
            split at h
            · cases hvc : valueToChar (v + 1) with
              | error e => rw [hvc] at h; cases h
              | ok c =>
                  rw [hvc] at h
                  simp only [except_bind_ok, except_pure, Except.ok.injEq] at h
                  subst h
                  have hdec := decomp_at hch
                  have hlt : ch < c :=
                    digit_lt_of_val_lt (charToValue_ok hcv).2 (valueToChar_ok hvc).2
                      (Nat.lt_succ_self v)
                  calc strLtB x (x.take (x.length - 1 - countLeading 'z' x.reverse) ++ [c])
                      = strLtB
                          (x.take (x.length - 1 - countLeading 'z' x.reverse) ++
                            ch :: x.drop (x.length - 1 - countLeading 'z' x.reverse + 1))
                          (x.take (x.length - 1 - countLeading 'z' x.reverse) ++ c :: []) := by
                        rw [← hdec]
                    _ = true := strLtB_append_lt _ _ _ hlt
            · simp only [except_pure, Except.ok.injEq] at h
              subst h
              exact strLtB_self_append x ['h'] (by simp)

example : generateKeyBetween none none = .ok "m".toList := by decide

example : generateKeyBetween (some "a0".toList) (some "c".toList) = .ok "b0".toList := by decide

example : generateKeyBefore "0".toList = .ok "00".toList := by decide

example : generateKeyBetween (some "a".toList) (some "a0".toList) = .error .emptyInterval := by
  decide

example : generateKeyAfter "m".toList = .ok "n".toList := by decide

example : generateKeyBetween (some "m".toList) (some "m00".toList) = .ok "m0".toList := by decide

/-! ### Validity lemmas -/

theorem mem_of_get?_eq {l : Str} {i : Nat} {c : Char} (h : l.get? i = some c) : c ∈ l := by
  rw [decomp_at h]
  simp

theorem allDigits_iff {s : Str} : allDigits s = true ↔ ∀ c ∈ s, c ∈ digitsList := by
  simp [allDigits, List.all_eq_true]

theorem allDigits_append {s t : Str} (hs : allDigits s = true) (ht : allDigits t = true) :
    allDigits (s ++ t) = true := by
  rw [allDigits_iff] at *
  intro c hc
  rcases List.mem_append.mp hc with h | h
  · exact hs c h
  · exact ht c h

theorem allDigits_sublist {s t : Str} (hsub : s.Sublist t) (ht : allDigits t = true) :
    allDigits s = true := by
  rw [allDigits_iff] at *
  exact fun c hc => ht c (hsub.subset hc)

theorem allDigits_take {s : Str} (n : Nat) (hs : allDigits s = true) :
    allDigits (s.take n) = true := allDigits_sublist (List.take_sublist n s) hs

theorem allDigits_drop {s : Str} (n : Nat) (hs : allDigits s = true) :
    allDigits (s.drop n) = true := allDigits_sublist (List.drop_sublist n s) hs

theorem allDigits_replicate_zero (n : Nat) : allDigits (List.replicate n '0') = true := by
  rw [allDigits_iff]
  intro c hc
  rw [List.eq_of_mem_replicate hc]
  decide

theorem allDigits_single {c : Char} (h : c ∈ digitsList) : allDigits [c] = true := by
  rw [allDigits_iff]
  intro d hd
  rw [List.mem_singleton.mp hd]
  exact h

theorem digit_mem_of_get? {v : Nat} {c : Char} (h : digitsList.get? v = some c) :
    c ∈ digitsList := mem_of_get?_eq h

/-- `charToValue` succeeds on alphabet characters. -/
theorem charToValue_total {c : Char} (h : c ∈ digitsList) :
    ∃ v, charToValue c = .ok v ∧ v < 36 ∧ digitsList.get? v = some c := by
  have hidx : digitsList.indexOf c < digitsList.length := List.indexOf_lt_length.mpr h
  rw [digits_length] at hidx
  refine ⟨digitsList.indexOf c, ?_, hidx, ?_⟩
  · simp [charToValue, hidx]
  · exact indexOf_get?_self (by rw [digits_length]; exact hidx)

/-- `valueToChar` succeeds below the base. -/
theorem valueToChar_total {v : Nat} (h : v < 36) :
    ∃ c, valueToChar v = .ok c ∧ digitsList.get? v = some c := by
  have hv : v < digitsList.length := by rw [digits_length]; exact h
  refine ⟨digitsList.get ⟨v, hv⟩, ?_, ?_⟩
  · simp [valueToChar, hv]
  · rw [List.get?_eq_getElem?, List.getElem?_eq_getElem hv]
    simp [List.get_eq_getElem]

theorem get?_some_of_lt {l : Str} {i : Nat} (h : i < l.length) : ∃ c, l.get? i = some c := by
  rw [List.get?_eq_getElem?, List.getElem?_eq_getElem h]
  exact ⟨l[i], rfl⟩

/-! ### `generateKeyAfter`: validity and totality -/

theorem generateKeyAfter_valid {x k : Str} (hx : allDigits x = true)
    (h : generateKeyAfter x = .ok k) : k ≠ [] ∧ allDigits k = true := by
  unfold generateKeyAfter at h
  split at h
  · cases h
    exact ⟨by simp, by decide⟩
  · split at h
    · cases h
      exact ⟨by simp, allDigits_append hx (by decide)⟩
    · split at h
      · cases h
      · rename_i ch hch
        cases hcv : charToValue ch with
        | error e => rw [hcv] at h; cases h
        | ok v =>
            rw [hcv, except_bind_ok] at h
            split at h
            · cases hvc : valueToChar (v + 1) with
              | error e => rw [hvc] at h; cases h
              | ok c =>
                  rw [hvc, except_bind_ok, except_pure, Except.ok.injEq] at h
                  subst h
                  refine ⟨by simp, allDigits_append (allDigits_take _ hx)
                    (allDigits_single (digit_mem_of_get? (valueToChar_ok hvc).2))⟩
            · rw [except_pure, Except.ok.injEq] at h
              subst h
              exact ⟨by simp, allDigits_append hx (by decide)⟩

theorem generateKeyAfter_total {x : Str} (hx : allDigits x = true) :
    ∃ k, generateKeyAfter x = .ok k := by
  unfold generateKeyAfter
  split
  · exact ⟨['m'], rfl⟩
  · split
    · exact ⟨x ++ ['h'], rfl⟩
    · rename_i hxe htz
      have hxlen : 0 < x.length := by
        cases x with
        | nil => simp at hxe
        | cons y ys => simp
      have htzlt : countLeading 'z' x.reverse < x.length := by
        have := countLeading_le 'z' x.reverse
        rw [List.length_reverse] at this
        omega
      obtain ⟨ch, hch⟩ := get?_some_of_lt
        (show x.length - 1 - countLeading 'z' x.reverse < x.length by omega)
      simp only [hch]
      obtain ⟨v, hv, hvlt, _⟩ := charToValue_total (allDigits_iff.mp hx ch (mem_of_get?_eq hch))
      rw [hv, except_bind_ok]
      split
      · obtain ⟨c, hc, _⟩ := valueToChar_total (show v + 1 < 36 by omega)
        rw [hc, except_bind_ok]
        exact ⟨_, rfl⟩
      · exact ⟨_, rfl⟩

/-! ### `generateKeyBefore`: order, validity, totality -/

/-- `b.any (c => c != '0')`: at least one non-zero character. -/
def hasNonZero (b : Str) : Bool := b.any (fun c => c ≠ '0')

theorem hasNonZero_countLeading_lt {b : Str} (h : hasNonZero b = true) :
    countLeading '0' b < b.length := by
  have hle := countLeading_le '0' b
  rcases Nat.lt_or_ge (countLeading '0' b) b.length with hlt | hge
  · exact hlt
  · exfalso
    have heq : countLeading '0' b = b.length := by omega
    have := countLeading_eq_length heq
    simp only [hasNonZero, List.any_eq_true] at h
    obtain ⟨c, hc, hcne⟩ := h
    rw [this] at hc
    have := List.eq_of_mem_replicate hc
    simp [this] at hcne

theorem generateKeyBefore_lt {b k : Str} (hnz : hasNonZero b = true)
    (h : generateKeyBefore b = .ok k) : strLtB k b = true := by
  have hlt := hasNonZero_countLeading_lt hnz
  unfold generateKeyBefore at h
  split at h
  · rename_i hbe
    rw [List.isEmpty_iff.mp hbe] at hlt
    simp at hlt
  · split at h
    · omega
    · split at h
      · cases h
      · rename_i ch hch
        obtain ⟨d, hd, hdne⟩ := countLeading_get hlt
        rw [hch] at hd
        have hchne : ch ≠ '0' := by
          cases hd
          exact hdne
        cases hcv : charToValue ch with
        | error e => rw [hcv] at h; cases h
        | ok v =>
            rw [hcv, except_bind_ok] at h
            have hvpos : 0 < v := by
              rcases Nat.eq_zero_or_pos v with h0 | hp
              · exfalso
                subst h0
                have := (charToValue_ok hcv).2
                have h00 : digitsList.get? 0 = some '0' := by decide
                rw [h00] at this
                cases this
                exact hchne rfl
              · exact hp
            split at h
            · rename_i hcond
              simp only [Bool.and_eq_true, decide_eq_true_eq] at hcond
              obtain ⟨hz0, hv1⟩ := hcond
              cases hvc : valueToChar (v / 2) with
              | error e => rw [hvc] at h; cases h
              | ok c =>
                  rw [hvc, except_bind_ok, except_pure, Except.ok.injEq] at h
                  subst h
                  have hcltch : c < ch :=
                    digit_lt_of_val_lt (valueToChar_ok hvc).2 (charToValue_ok hcv).2
                      (Nat.div_lt_self (by omega) (by omega))
                  have hdec := decomp_at hch
                  rw [hz0] at hdec
                  simp only [List.take_zero, List.nil_append, Nat.zero_add] at hdec
                  calc strLtB [c] b = strLtB ([] ++ c :: []) ([] ++ ch :: b.drop 1) := by
                        rw [← hdec]
                        rfl
                    _ = true := strLtB_append_lt [] _ _ hcltch
            · split at h
              · rename_i hv1
                cases hvc : valueToChar (v / 2) with
                | error e => rw [hvc] at h; cases h
                | ok c =>
                    rw [hvc, except_bind_ok, except_pure, Except.ok.injEq] at h
                    subst h
                    have hcltch : c < ch :=
                      digit_lt_of_val_lt (valueToChar_ok hvc).2 (charToValue_ok hcv).2
                        (Nat.div_lt_self (by omega) (by omega))
                    have hdec := decomp_at hch
                    calc strLtB (b.take (countLeading '0' b) ++ [c]) b
                        = strLtB (b.take (countLeading '0' b) ++ c :: [])
                            (b.take (countLeading '0' b) ++
                              ch :: b.drop (countLeading '0' b + 1)) := by
                          rw [← hdec]
                      _ = true := strLtB_append_lt _ _ _ hcltch
              · rename_i hv1
                rw [except_pure, Except.ok.injEq] at h
                subst h
                have hveq : v = 1 := by omega
                have hch1 : ch = '1' := by
                  have := (charToValue_ok hcv).2
                  rw [hveq] at this
                  have h11 : digitsList.get? 1 = some '1' := by decide
                  rw [h11] at this
                  cases this
                  rfl
                have hdec := decomp_at hch
                have h01 : '0' < ch := by
                  rw [hch1]
                  decide
                calc strLtB (b.take (countLeading '0' b) ++ ['0', 'h']) b
                    = strLtB (b.take (countLeading '0' b) ++ '0' :: ['h'])
                        (b.take (countLeading '0' b) ++
                          ch :: b.drop (countLeading '0' b + 1)) := by
                      rw [← hdec]
                  _ = true := strLtB_append_lt _ _ _ h01

theorem generateKeyBefore_valid {b k : Str} (hb : allDigits b = true)
    (h : generateKeyBefore b = .ok k) : k ≠ [] ∧ allDigits k = true := by
  unfold generateKeyBefore at h
  split at h
  · cases h
    exact ⟨by simp, by decide⟩
  · split at h
    · cases h
      refine ⟨by simp, ?_⟩
      have : ('0' :: b) = ['0'] ++ b := rfl
      rw [this]
      exact allDigits_append (by decide) hb
    · split at h
      · cases h
      · rename_i ch hch
        cases hcv : charToValue ch with
        | error e => rw [hcv] at h; cases h
        | ok v =>
            rw [hcv, except_bind_ok] at h
            split at h
            · cases hvc : valueToChar (v / 2) with
              | error e => rw [hvc] at h; cases h
              | ok c =>
                  rw [hvc, except_bind_ok, except_pure, Except.ok.injEq] at h
                  subst h
                  exact ⟨by simp, allDigits_single (digit_mem_of_get? (valueToChar_ok hvc).2)⟩
            · split at h
              · cases hvc : valueToChar (v / 2) with
                | error e => rw [hvc] at h; cases h
                | ok c =>
                    rw [hvc, except_bind_ok, except_pure, Except.ok.injEq] at h
                    subst h
                    refine ⟨by simp, allDigits_append (allDigits_take _ hb)
                      (allDigits_single (digit_mem_of_get? (valueToChar_ok hvc).2))⟩
              · rw [except_pure, Except.ok.injEq] at h
                subst h
                exact ⟨by simp, allDigits_append (allDigits_take _ hb) (by decide)⟩

theorem generateKeyBefore_total {b : Str} (hb : allDigits b = true) :
    ∃ k, generateKeyBefore b = .ok k := by
  unfold generateKeyBefore
  split
  · exact ⟨['m'], rfl⟩
  · split
    · exact ⟨_, rfl⟩
    · rename_i hbe hz
      have hblen : 0 < b.length := by
        cases b with
        | nil => simp at hbe
        | cons y ys => simp
      have hzlt : countLeading '0' b < b.length := by
        have := countLeading_le '0' b
        omega
      obtain ⟨ch, hch⟩ := get?_some_of_lt hzlt
      simp only [hch]
      obtain ⟨v, hv, hvlt, _⟩ := charToValue_total (allDigits_iff.mp hb ch (mem_of_get?_eq hch))
      rw [hv, except_bind_ok]
      split
      · obtain ⟨c, hc, _⟩ := valueToChar_total (show v / 2 < 36 by omega)
        rw [hc, except_bind_ok]
        exact ⟨_, rfl⟩
      · split
        · obtain ⟨c, hc, _⟩ := valueToChar_total (show v / 2 < 36 by omega)
          rw [hc, except_bind_ok]
          exact ⟨_, rfl⟩
        · exact ⟨_, rfl⟩

/-! ### `gkbCaseA`: `a` a proper prefix of `b = a ++ bs` -/

theorem gkbCaseA_between {a bs k : Str} (h : gkbCaseA a bs = .ok k) :
    strLtB a k = true ∧ strLtB k (a ++ bs) = true := by
  cases bs with
  | nil => simp [gkbCaseA] at h
  | cons nc rest => ?_
  simp only [gkbCaseA] at h
  cases hcv : charToValue nc with
  | error e => rw [hcv, except_bind_err] at h; cases h
  | ok nv =>
      rw [hcv, except_bind_ok] at h
      have hncget := (charToValue_ok hcv).2
      split at h
      · rename_i hnv
        split at h
        · cases hvc : valueToChar (nv / 2) with
          | error e => rw [hvc] at h; cases h
          | ok c =>
              rw [hvc, except_bind_ok, except_pure, Except.ok.injEq] at h
              subst h
              refine ⟨strLtB_self_append a [c] (by simp), ?_⟩
              have hclt : c < nc :=
                digit_lt_of_val_lt (valueToChar_ok hvc).2 hncget
                  (Nat.div_lt_self (by omega) (by omega))
              have : a ++ [c] = a ++ c :: [] := rfl
              rw [this]
              exact strLtB_append_lt a [] rest hclt
        · rw [except_pure, Except.ok.injEq] at h
          subst h
          refine ⟨strLtB_self_append a ['0'] (by simp), ?_⟩
          have h0get : digitsList.get? 0 = some '0' := by decide
          have hclt : '0' < nc := digit_lt_of_val_lt h0get hncget (by omega)
          have : a ++ ['0'] = a ++ '0' :: [] := rfl
          rw [this]
          exact strLtB_append_lt a [] rest hclt
      · rename_i hnv
        have hnv0 : nv = 0 := by omega
        have hnc0 : nc = '0' := by
          rw [hnv0] at hncget
          have h0get : digitsList.get? 0 = some '0' := by decide
          rw [h0get] at hncget
          cases hncget
          rfl
        subst hnc0
        split at h
        · cases h
        · rename_i hrest
          split at h
          · rename_i hcond
            obtain ⟨hzeq, hzgt⟩ := hcond
            rw [except_pure, Except.ok.injEq] at h
            subst h
            constructor
            · refine strLtB_self_append a _ ?_
              have hpos : 0 < countLeading '0' ('0' :: rest) / 2 := by omega
              intro hcontra
              have := congrArg List.length hcontra
              simp at this
              omega
            · have hrep := countLeading_eq_length hzeq
              set zc := countLeading '0' ('0' :: rest) with hzc
              have hdiv : zc / 2 + (('0' :: rest).length - zc / 2) = ('0' :: rest).length := by
                have h1 : zc / 2 ≤ zc := Nat.div_le_self zc 2
                omega
              have hkey : ('0' :: rest) =
                  List.replicate (zc / 2) '0' ++
                    List.replicate (('0' :: rest).length - zc / 2) '0' := by
                conv_lhs => rw [hrep]
                rw [← List.replicate_add, hdiv]
              rw [show a ++ '0' :: rest =
                  (a ++ List.replicate (zc / 2) '0') ++
                    List.replicate (('0' :: rest).length - zc / 2) '0' from by
                conv_lhs => rw [hkey]
                rw [List.append_assoc]]
              refine strLtB_self_append _ _ ?_
              intro hcontra
              have hlen := congrArg List.length hcontra
              simp only [List.length_replicate, List.length_nil] at hlen
              have h2 : zc / 2 < zc := Nat.div_lt_self (by omega) (by omega)
              omega
          · split at h
            · rename_i hzlt
              split at h
              · cases h
              · rename_i nc2 hnc2
                cases hcv2 : charToValue nc2 with
                | error e => rw [hcv2] at h; cases h
                | ok nv2 =>
                    rw [hcv2, except_bind_ok] at h
                    split at h
                    · rename_i hnv2
                      cases hvc2 : valueToChar (nv2 / 2) with
                      | error e => rw [hvc2] at h; cases h
                      | ok c =>
                          rw [hvc2, except_bind_ok, except_pure, Except.ok.injEq] at h
                          subst h
                          have hdec := decomp_at hnc2
                          have hreptake := countLeading_take '0' ('0' :: rest)
                          have hclt : c < nc2 :=
                            digit_lt_of_val_lt (valueToChar_ok hvc2).2
                              (charToValue_ok hcv2).2
                              (Nat.div_lt_self (by omega) (by omega))
                          have hb2 : a ++ '0' :: rest =
                              (a ++ List.replicate (countLeading '0' ('0' :: rest)) '0') ++
                                nc2 ::
                                  ('0' :: rest).drop (countLeading '0' ('0' :: rest) + 1) := by
                            rw [List.append_assoc, ← hreptake]
                            exact congrArg (a ++ ·) hdec
                          constructor
                          · have hassoc :
                                a ++ List.replicate (countLeading '0' ('0' :: rest)) '0'
                                  ++ [c] =
                                a ++ (List.replicate (countLeading '0' ('0' :: rest)) '0'
                                  ++ [c]) := by
                              rw [List.append_assoc]
                            rw [hassoc]
                            exact strLtB_self_append a _ (by simp)
                          · rw [hb2]
                            exact strLtB_append_lt _ _ _ hclt
                    · cases h
            · cases h

theorem ne_nil_of_append_cons {u w : Str} {d : Char} : u ++ d :: w ≠ [] := by
  intro hcontra
  have := congrArg List.length hcontra
  simp at this

theorem gkbCaseA_valid {a bs k : Str} (ha : allDigits a = true)
    (h : gkbCaseA a bs = .ok k) : k ≠ [] ∧ allDigits k = true := by
  cases bs with
  | nil => simp [gkbCaseA] at h
  | cons nc rest => ?_
  simp only [gkbCaseA] at h
  cases hcv : charToValue nc with
  | error e => rw [hcv, except_bind_err] at h; cases h
  | ok nv =>
      rw [hcv, except_bind_ok] at h
      split at h
      · split at h
        · cases hvc : valueToChar (nv / 2) with
          | error e => rw [hvc] at h; cases h
          | ok c =>
              rw [hvc, except_bind_ok, except_pure, Except.ok.injEq] at h
              subst h
              exact ⟨ne_nil_of_append_cons,
                allDigits_append ha (allDigits_single (digit_mem_of_get? (valueToChar_ok hvc).2))⟩
        · rw [except_pure, Except.ok.injEq] at h
          subst h
          exact ⟨ne_nil_of_append_cons, allDigits_append ha (by decide)⟩
      · split at h
        · cases h
        · split at h
          · rename_i hcond
            rw [except_pure, Except.ok.injEq] at h
            subst h
            refine ⟨?_, allDigits_append ha (allDigits_replicate_zero _)⟩
            intro hcontra
            have := congrArg List.length hcontra
            simp at this
            omega
          · split at h
            · split at h
              · cases h
              · rename_i nc2 hnc2
                cases hcv2 : charToValue nc2 with
                | error e => rw [hcv2] at h; cases h
                | ok nv2 =>
                    rw [hcv2, except_bind_ok] at h
                    split at h
                    · cases hvc2 : valueToChar (nv2 / 2) with
                      | error e => rw [hvc2] at h; cases h
                      | ok c =>
                          rw [hvc2, except_bind_ok, except_pure, Except.ok.injEq] at h
                          subst h
                          refine ⟨ne_nil_of_append_cons, ?_⟩
                          exact allDigits_append
                            (allDigits_append ha (allDigits_replicate_zero _))
                            (allDigits_single (digit_mem_of_get? (valueToChar_ok hvc2).2))
                    · cases h
            · cases h

/-! ### `gkbCaseB` lemmas -/

theorem gkbCaseB_between {pre asuf k : Str} {ac bc : Char} (hlt : ac < bc)
    (h : gkbCaseB pre ac asuf bc = .ok k) :
    strLtB (pre ++ ac :: asuf) k = true ∧ ∀ bsuf, strLtB k (pre ++ bc :: bsuf) = true := by
  unfold gkbCaseB at h
  cases hav : charToValue ac with
  | error e => rw [hav, except_bind_err] at h; cases h
  | ok av =>
      rw [hav, except_bind_ok] at h
      cases hbv : charToValue bc with
      | error e => rw [hbv, except_bind_err] at h; cases h
      | ok bv =>
          rw [hbv, except_bind_ok] at h
          have havbv : av < bv :=
            val_lt_of_digit_lt (charToValue_ok hav).2 (charToValue_ok hbv).2 hlt
          split at h
          · rename_i hgap
            cases hvc : valueToChar ((av + bv) / 2) with
            | error e => rw [hvc] at h; cases h
            | ok c =>
                rw [hvc, except_bind_ok, except_pure, Except.ok.injEq] at h
                subst h
                have hmid1 : av < (av + bv) / 2 := by omega
                have hmid2 : (av + bv) / 2 < bv := by omega
                have hac : ac < c :=
                  digit_lt_of_val_lt (charToValue_ok hav).2 (valueToChar_ok hvc).2 hmid1
                have hcb : c < bc :=
                  digit_lt_of_val_lt (valueToChar_ok hvc).2 (charToValue_ok hbv).2 hmid2
                have hshape : pre ++ [c] ++ asuf = pre ++ c :: asuf := by simp
                rw [hshape]
                exact ⟨strLtB_append_lt pre asuf asuf hac,
                  fun bsuf => strLtB_append_lt pre asuf bsuf hcb⟩
          · split at h
            · rename_i hasuf
              rw [except_pure, Except.ok.injEq] at h
              subst h
              have hasufe : asuf = [] := List.isEmpty_iff.mp hasuf
              subst hasufe
              have hshape : pre ++ [ac] ++ ['h'] = pre ++ ac :: ['h'] := by simp
              rw [hshape]
              constructor
              · have hshape2 : pre ++ ac :: ([] : Str) = (pre ++ [ac]) ++ [] := by simp
                have hshape3 : pre ++ ac :: ['h'] = (pre ++ [ac]) ++ ['h'] := by simp
                rw [hshape2, hshape3, List.append_nil]
                exact strLtB_self_append _ _ (by simp)
              · exact fun bsuf => strLtB_append_lt pre ['h'] bsuf hlt
            · cases hsfx : generateKeyAfter asuf with
              | error e => rw [hsfx, except_bind_err] at h; cases h
              | ok sfx =>
                  rw [hsfx, except_bind_ok, except_pure, Except.ok.injEq] at h
                  subst h
                  have hshape : pre ++ [ac] ++ sfx = pre ++ ac :: sfx := by simp
                  rw [hshape]
                  constructor
                  · have hshape2 : pre ++ ac :: asuf = (pre ++ [ac]) ++ asuf := by simp
                    have hshape3 : pre ++ ac :: sfx = (pre ++ [ac]) ++ sfx := by simp
                    rw [hshape2, hshape3]
                    exact strLtB_append_left _ (generateKeyAfter_gt hsfx)
                  · exact fun bsuf => strLtB_append_lt pre sfx bsuf hlt

theorem gkbCaseB_valid {pre asuf k : Str} {ac bc : Char} (hpre : allDigits pre = true)
    (hac : ac ∈ digitsList) (hasuf : allDigits asuf = true)
    (h : gkbCaseB pre ac asuf bc = .ok k) : k ≠ [] ∧ allDigits k = true := by
  unfold gkbCaseB at h
  cases hav : charToValue ac with
  | error e => rw [hav, except_bind_err] at h; cases h
  | ok av =>
      rw [hav, except_bind_ok] at h
      cases hbv : charToValue bc with
      | error e => rw [hbv, except_bind_err] at h; cases h
      | ok bv =>
          rw [hbv, except_bind_ok] at h
          split at h
          · cases hvc : valueToChar ((av + bv) / 2) with
            | error e => rw [hvc] at h; cases h
            | ok c =>
                rw [hvc, except_bind_ok, except_pure, Except.ok.injEq] at h
                subst h
                have hshape : pre ++ [c] ++ asuf = pre ++ c :: asuf := by simp
                rw [hshape]
                exact ⟨ne_nil_of_append_cons,
                  by
                    have : (c :: asuf) = [c] ++ asuf := rfl
                    rw [this]
                    exact allDigits_append hpre (allDigits_append
                      (allDigits_single (digit_mem_of_get? (valueToChar_ok hvc).2)) hasuf)⟩
          · split at h
            · rw [except_pure, Except.ok.injEq] at h
              subst h
              have hshape : pre ++ [ac] ++ ['h'] = pre ++ ac :: ['h'] := by simp
              rw [hshape]
              exact ⟨ne_nil_of_append_cons,
                by
                  have : (ac :: ['h']) = [ac] ++ ['h'] := rfl
                  rw [this]
                  exact allDigits_append hpre (allDigits_append
                    (allDigits_single hac) (by decide))⟩
            · cases hsfx : generateKeyAfter asuf with
              | error e => rw [hsfx, except_bind_err] at h; cases h
              | ok sfx =>
                  rw [hsfx, except_bind_ok, except_pure, Except.ok.injEq] at h
                  subst h
                  have hshape : pre ++ [ac] ++ sfx = pre ++ ac :: sfx := by simp
                  rw [hshape]
                  exact ⟨ne_nil_of_append_cons,
                    by
                      have : (ac :: sfx) = [ac] ++ sfx := rfl
                      rw [this]
                      exact allDigits_append hpre (allDigits_append
                        (allDigits_single hac)
                        (generateKeyAfter_valid hasuf hsfx).2)⟩

/-! ### `generateKeyBetween` main lemmas -/

theorem gkbMain_between {sa sb k : Str} (h : gkbMain sa sb = .ok k) :
    strLtB sa sb = true ∧ strLtB sa k = true ∧ strLtB k sb = true := by
  unfold gkbMain at h
  split at h
  · cases h
  · rename_i hab
    have hab' : strLtB sa sb = true := by
      simpa using hab
    refine ⟨hab', ?_⟩
    split at h
    · rename_i hcpl
      have hbetween := gkbCaseA_between h
      refine ⟨hbetween.1, ?_⟩
      have h2 := hbetween.2
      rw [hcpl] at h2
      rw [← append_drop_of_cpl_eq_left hcpl] at h2
      exact h2
    · split at h
      · cases h
      · rename_i hcpa hcpb
        have hcpl_lt_a : commonPrefixLen sa sb < sa.length :=
          Nat.lt_of_le_of_ne (commonPrefixLen_le_left sa sb) hcpa
        obtain ⟨x, y, hx, hy, hxy⟩ := strLtB_cpl_get hab' hcpl_lt_a
        rw [hx, hy] at h
        have hb := gkbCaseB_between hxy h
        constructor
        · have hdeca := decomp_at hx
          rw [hdeca]
          exact hb.1
        · have hdecb := decomp_at hy
          rw [hdecb, ← commonPrefixLen_take sa sb]
          exact hb.2 (sb.drop (commonPrefixLen sa sb + 1))

theorem gkbMain_valid {sa sb k : Str} (ha : allDigits sa = true) (hb : allDigits sb = true)
    (h : gkbMain sa sb = .ok k) : k ≠ [] ∧ allDigits k = true := by
  unfold gkbMain at h
  split at h
  · cases h
  · split at h
    · rename_i hcpl
      exact gkbCaseA_valid ha h
    · split at h
      · cases h
      · rename_i hcpa hcpb
        have hcpl_lt_a : commonPrefixLen sa sb < sa.length :=
          Nat.lt_of_le_of_ne (commonPrefixLen_le_left sa sb) hcpa
        obtain ⟨x, hx⟩ := get?_some_of_lt hcpl_lt_a
        have hcpl_lt_b : commonPrefixLen sa sb < sb.length :=
          Nat.lt_of_le_of_ne (commonPrefixLen_le_right sa sb) hcpb
        obtain ⟨y, hy⟩ := get?_some_of_lt hcpl_lt_b
        rw [hx, hy] at h
        exact gkbCaseB_valid (allDigits_take _ ha)
          (allDigits_iff.mp ha x (mem_of_get?_eq hx)) (allDigits_drop _ ha) h

theorem generateKeyBetween_both {a b k : Str} (hae : a ≠ []) (hbe : b ≠ [])
    (h : generateKeyBetween (some a) (some b) = .ok k) :
    strLtB a b = true ∧ strLtB a k = true ∧ strLtB k b = true := by
  unfold generateKeyBetween at h
  simp only [Option.getD_some] at h
  rw [if_neg (by simp [List.isEmpty_iff, hae, hbe]), if_neg (by simp [List.isEmpty_iff, hae]),
    if_neg (by simp [List.isEmpty_iff, hbe])] at h
  exact gkbMain_between h

theorem generateKeyBetween_both_valid {a b k : Str} (hae : a ≠ []) (hbe : b ≠ [])
    (ha : allDigits a = true) (hb : allDigits b = true)
    (h : generateKeyBetween (some a) (some b) = .ok k) :
    k ≠ [] ∧ allDigits k = true := by
  unfold generateKeyBetween at h
  simp only [Option.getD_some] at h
  rw [if_neg (by simp [List.isEmpty_iff, hae, hbe]), if_neg (by simp [List.isEmpty_iff, hae]),
    if_neg (by simp [List.isEmpty_iff, hbe])] at h
  exact gkbMain_valid ha hb h

/-! ### `fractionalIndexBetween` lemmas -/

theorem fractionalIndexBetween_both {a b k : Str} {j : JitterStep} (hae : a ≠ []) (hbe : b ≠ [])
    (h : fractionalIndexBetween (some a) (some b) j = .ok k) :
    strLtB a k = true ∧ strLtB k b = true := by
  unfold fractionalIndexBetween at h
  cases hg : generateKeyBetween (some a) (some b) with
  | error e => rw [hg, except_bind_err] at h; cases h
  | ok key =>
      rw [hg, except_bind_ok] at h
      have hkey := generateKeyBetween_both hae hbe hg
      split at h
      · cases hvc : valueToChar j.pick with
        | error e => rw [hvc, except_bind_err] at h; cases h
        | ok c =>
            rw [hvc, except_bind_ok] at h
            split at h
            · rename_i hok
              rw [except_pure, Except.ok.injEq] at h
              subst h
              simp only [jitterOkLow, jitterOkHigh, Bool.and_eq_true, Bool.or_eq_true] at hok
              obtain ⟨hlow, hhigh⟩ := hok
              constructor
              · rcases hlow with hlow | hlow
                · exact absurd (List.isEmpty_iff.mp hlow) hae
                · exact hlow
              · rcases hhigh with hhigh | hhigh
                · exact absurd (List.isEmpty_iff.mp hhigh) hbe
                · exact hhigh
            · rw [except_pure, Except.ok.injEq] at h
              subst h
              exact ⟨hkey.2.1, hkey.2.2⟩
      · rw [except_pure, Except.ok.injEq] at h
        subst h
        exact ⟨hkey.2.1, hkey.2.2⟩

theorem fractionalIndexBetween_both_valid {a b k : Str} {j : JitterStep}
    (hae : a ≠ []) (hbe : b ≠ []) (ha : allDigits a = true) (hb : allDigits b = true)
    (h : fractionalIndexBetween (some a) (some b) j = .ok k) :
    k ≠ [] ∧ allDigits k = true := by
  unfold fractionalIndexBetween at h
  cases hg : generateKeyBetween (some a) (some b) with
  | error e => rw [hg, except_bind_err] at h; cases h
  | ok key =>
      rw [hg, except_bind_ok] at h
      have hkey := generateKeyBetween_both_valid hae hbe ha hb hg
      split at h
      · cases hvc : valueToChar j.pick with
        | error e => rw [hvc, except_bind_err] at h; cases h
        | ok c =>
            rw [hvc, except_bind_ok] at h
            split at h
            · rw [except_pure, Except.ok.injEq] at h
              subst h
              exact ⟨ne_nil_of_append_cons, allDigits_append hkey.2
                (allDigits_single (digit_mem_of_get? (valueToChar_ok hvc).2))⟩
            · rw [except_pure, Except.ok.injEq] at h
              subst h
              exact hkey
      · rw [except_pure, Except.ok.injEq] at h
        subst h
        exact hkey

theorem strLtB_nil_right (s : Str) : strLtB s [] = false := by
  cases s <;> rfl

theorem ne_nil_of_strLtB {s k : Str} (h : strLtB s k = true) : k ≠ [] := by
  intro hk
  subst hk
  rw [strLtB_nil_right] at h
  cases h

/-- Lower-bound guarantee of the jittered generator when the upper bound is
absent: the result is strictly above `prev` (an absent or empty lower bound
is below every produced key). -/
theorem fractionalIndexBetween_lower {prev : Option Str} {k : Str} {j : JitterStep}
    (h : fractionalIndexBetween prev none j = .ok k) :
    strLtB (prev.getD []) k = true := by
  unfold fractionalIndexBetween at h
  cases hg : generateKeyBetween prev none with
  | error e => rw [hg, except_bind_err] at h; cases h
  | ok key => ?_
  rw [hg, except_bind_ok] at h
  have hkey : strLtB (prev.getD []) key = true := by
    unfold generateKeyBetween at hg
    by_cases hpe : (prev.getD []).isEmpty = true
    · rw [if_pos (by simp [hpe])] at hg
      cases hg
      rw [List.isEmpty_iff.mp hpe]
      rfl
    · rw [if_neg (by simp [hpe]), if_neg hpe, if_pos (by simp)] at hg
      exact generateKeyAfter_gt hg
  split at h
  · cases hvc : valueToChar j.pick with
    | error e => rw [hvc, except_bind_err] at h; cases h
    | ok c =>
        rw [hvc, except_bind_ok] at h
        split at h
        · rename_i hok
          rw [except_pure, Except.ok.injEq] at h
          subst h
          simp only [jitterOkLow, Bool.and_eq_true] at hok
          cases prev with
          | none =>
              simp only [Option.getD_none]
              refine strLtB_nil _ ?_
              exact ne_nil_of_append_cons
          | some p =>
              simp only [Option.getD_some] at hkey ⊢
              rcases Bool.or_eq_true_iff.mp hok.1 with hpe | hlt
              · rw [List.isEmpty_iff.mp hpe]
                refine strLtB_nil _ ne_nil_of_append_cons
              · exact hlt
        · rw [except_pure, Except.ok.injEq] at h
          subst h
          exact hkey
  · rw [except_pure, Except.ok.injEq] at h
    subst h
    exact hkey

/-- Upper-bound guarantee of the jittered generator when the lower bound is
absent and the upper bound has a non-zero character. -/
theorem fractionalIndexBetween_upper {q k : Str} {j : JitterStep}
    (hnz : hasNonZero q = true) (h : fractionalIndexBetween none (some q) j = .ok k) :
    strLtB k q = true := by
  have hqe : q ≠ [] := by
    intro hq
    subst hq
    simp [hasNonZero] at hnz
  unfold fractionalIndexBetween at h
  cases hg : generateKeyBetween none (some q) with
  | error e => rw [hg, except_bind_err] at h; cases h
  | ok key => ?_
  rw [hg, except_bind_ok] at h
  have hkey : strLtB key q = true := by
    unfold generateKeyBetween at hg
    rw [if_neg (by simp [List.isEmpty_iff, hqe]), if_pos (by simp)] at hg
    exact generateKeyBefore_lt hnz hg
  split at h
  · cases hvc : valueToChar j.pick with
    | error e => rw [hvc, except_bind_err] at h; cases h
    | ok c =>
        rw [hvc, except_bind_ok] at h
        split at h
        · rename_i hok
          rw [except_pure, Except.ok.injEq] at h
          subst h
          simp only [jitterOkHigh, Bool.and_eq_true] at hok
          rcases Bool.or_eq_true_iff.mp hok.2 with hpe | hlt
          · exact absurd (List.isEmpty_iff.mp hpe) hqe
          · exact hlt
        · rw [except_pure, Except.ok.injEq] at h
          subst h
          exact hkey
  · rw [except_pure, Except.ok.injEq] at h
    subst h
    exact hkey

/-! ### `generateFractionalIndices` -/

/-- The sequential-subdivision loop of `generateFractionalIndices`:
`prev` starts at `a` and is replaced by each generated key; the jitter
stream is indexed by the call number. -/
def gfiGo (b : Option Str) (j : Nat → JitterStep) :
    Option Str → Nat → Nat → Except Err (List Str)
  | _, _, 0 => .ok []
  | prev, idx, Nat.succ m => do
      let key ← fractionalIndexBetween prev b (j idx)
      let rest ← gfiGo b j (some key) (idx + 1) m
      return key :: rest

/-- `generateFractionalIndices(a, b, n, jitterProvider)`: `n` keys generated
by repeated subdivision (`prev ← between(prev, b)`); returns `[]` for
`n ≤ 0` and a single `between(a, b)` for `n = 1`, exactly as the loop
does. -/
def generateFractionalIndices (a b : Option Str) (n : Nat) (j : Nat → JitterStep) :
    Except Err (List Str) := gfiGo b j a 0 n

theorem gfiGo_length {j : Nat → JitterStep} :
    ∀ {m : Nat} {prev : Option Str} {idx : Nat} {ks : List Str},
      gfiGo none j prev idx m = .ok ks → ks.length = m
  | 0, prev, idx, ks, h => by
      simp only [gfiGo, Except.ok.injEq] at h
      subst h
      rfl
  | Nat.succ m, prev, idx, ks, h => by
      simp only [gfiGo] at h
      cases hf : fractionalIndexBetween prev none (j idx) with
      | error e => rw [hf, except_bind_err] at h; cases h
      | ok key =>
          rw [hf, except_bind_ok] at h
          cases hr : gfiGo none j (some key) (idx + 1) m with
          | error e => rw [hr, except_bind_err] at h; cases h
          | ok rest =>
              rw [hr, except_bind_ok, except_pure, Except.ok.injEq] at h
              subst h
              simp [gfiGo_length hr]

theorem gfiGo_chain {j : Nat → JitterStep} :
    ∀ {m : Nat} {prev : Option Str} {idx : Nat} {ks : List Str},
      gfiGo none j prev idx m = .ok ks →
      List.Chain' (fun x y => strLtB x y = true) (prev.getD [] :: ks)
  | 0, prev, idx, ks, h => by
      simp only [gfiGo, Except.ok.injEq] at h
      subst h
      simp
  | Nat.succ m, prev, idx, ks, h => by
      simp only [gfiGo] at h
      cases hf : fractionalIndexBetween prev none (j idx) with
      | error e => rw [hf, except_bind_err] at h; cases h
      | ok key =>
          rw [hf, except_bind_ok] at h
          cases hr : gfiGo none j (some key) (idx + 1) m with
          | error e => rw [hr, except_bind_err] at h; cases h
          | ok rest =>
              rw [hr, except_bind_ok, except_pure, Except.ok.injEq] at h
              subst h
              have htail := gfiGo_chain hr
              simp only [Option.getD_some] at htail
              exact List.Chain'.cons (fractionalIndexBetween_lower hf) htail

/-- The keys produced with no bounds are strictly increasing. -/
theorem generateFractionalIndices_chain {n : Nat} {j : Nat → JitterStep} {ks : List Str}
    (h : generateFractionalIndices none none n j = .ok ks) :
    List.Chain' (fun x y => strLtB x y = true) ks ∧ ks.length = n := by
  unfold generateFractionalIndices at h
  exact ⟨(gfiGo_chain h).tail, gfiGo_length h⟩

/-! ### Cell references, events and sorting -/

/-- `CellReference = { id, fractionalIndex, cellType }`. -/
structure CellReference where
  id : String
  fractionalIndex : Option Str
  cellType : String
deriving DecidableEq, Repr

/-- `events.cellMoved2` payload (`v2.CellMoved`). -/
structure CellMoved2 where
  id : String
  fractionalIndex : Str
  actorId : Option String
deriving DecidableEq, Repr

/-- `events.cellCreated2` payload (`v2.CellCreated`). -/
structure CellCreated2 where
  id : String
  cellType : String
  createdBy : String
  fractionalIndex : Str
deriving DecidableEq, Repr

/-- The union of events a cell operation can emit. -/
inductive CellOpEvent where
  | created (e : CellCreated2)
  | moved (e : CellMoved2)
deriving DecidableEq, Repr

/-- `(cell.fractionalIndex || "")`: the sort key of a cell. -/
def cellKey (c : CellReference) : Str := c.fractionalIndex.getD []

/-- The sort comparator `(a, b) => (a.fractionalIndex || "").localeCompare(...)`,
modelled as `≤` on the base-36 keys where locale order and byte order
agree. -/
def cellLe (a b : CellReference) : Bool := !strLtB (cellKey b) (cellKey a)

/-- `[...cells].sort(comparator)`: a stable sort by fractional index. -/
def sortCells (cells : List CellReference) : List CellReference :=
  cells.insertionSort (fun a b => cellLe a b = true)

/-- `cellX?.fractionalIndex || null`: the bound key supplied to the index
algebra (absent cell, null index and empty index all become null). -/
def optKey (c : Option CellReference) : Option Str :=
  match c with
  | none => none
  | some r =>
      match r.fractionalIndex with
      | none => none
      | some s => if s.isEmpty then none else some s

/-- The catch block of `needsRebalancing`/`betweenWithFallback`: only the
`No string exists between` and `Invalid range` errors count. -/
def pairRaises (x y : Option Str) : Bool :=
  match fractionalIndexBetween x y zeroJitterStep with
  | .error .emptyInterval => true
  | .error .invalidRange => true
  | _ => false

/-- One adjacent-pair probe of `needsRebalancing` (`continue` when either
index is falsy). -/
def adjacentPairBad (c n : CellReference) : Bool :=
  match c.fractionalIndex, n.fractionalIndex with
  | some cur, some nxt =>
      if cur.isEmpty || nxt.isEmpty then false
      else pairRaises (some cur) (some nxt)
  | _, _ => false

/-- JavaScript array access with a possibly negative index. -/
def getCellAt (l : List CellReference) (i : Int) : Option CellReference :=
  if i < 0 then none else l.get? i.toNat

/-- JavaScript array access for strings. -/
def getStrAt (l : List Str) (i : Int) : Option Str :=
  if i < 0 then none else l.get? i.toNat

/-- `needsRebalancing(cells, insertPosition?)`. -/
def needsRebalancing (cells : List CellReference) (insertPosition : Option Int) : Bool :=
  if cells.length < 2 then false
  else
    ((sortCells cells).zip (sortCells cells).tail).any (fun p => adjacentPairBad p.1 p.2) ||
      (match insertPosition with
       | none => false
       | some pos =>
           match (if pos > 0 then getCellAt (sortCells cells) (pos - 1) else none),
               (if pos < ((sortCells cells).length : Int) then getCellAt (sortCells cells) pos
                else none) with
           | some bc, some ac => pairRaises bc.fractionalIndex ac.fractionalIndex
           | _, _ => false)

/-- `RebalanceResult = { newIndices, events }`. -/
structure RebalanceResult where
  newIndices : List (String × Str)
  events : List CellMoved2
deriving DecidableEq, Repr

/-- `rebalanceCellIndices(cells, { jitterProvider, actorId, bufferCells })`:
sort by current index, generate `|cells| + 2·bufferCells` fresh keys, and
assign the keys at offsets `bufferCells, bufferCells+1, …`, skipping cells
whose key is unchanged (or a falsy generated key). -/
def rebalanceCellIndices (cells : List CellReference) (jp : Nat → JitterStep)
    (actorId : String) (bufferCells : Nat) : Except Err RebalanceResult :=
  if cells.length = 0 then .ok ⟨[], []⟩
  else do
    let indices ← generateFractionalIndices none none (cells.length + 2 * bufferCells) jp
    let pairs := ((sortCells cells).zip (indices.drop bufferCells)).filter
      (fun p => !p.2.isEmpty && decide (p.1.fractionalIndex ≠ some p.2))
    return ⟨pairs.map (fun p => (p.1.id, p.2)),
      pairs.map (fun p => ⟨p.1.id, p.2, some actorId⟩)⟩

/-! ### Cell operations -/

/-- JavaScript string `>` against a possibly null key (comparison with
`null` is false). -/
def jsGtKey (x : Str) (o : Option Str) : Bool :=
  match o with
  | some y => strLtB y x
  | none => false

/-- JavaScript string `<` against a possibly null key. -/
def jsLtKey (x : Str) (o : Option Str) : Bool :=
  match o with
  | some y => strLtB x y
  | none => false

/-- The already-in-place check of `moveCellBetween`. -/
def moveStraddles (ci : Str) (cellBefore cellAfter : Option CellReference) : Bool :=
  match cellBefore, cellAfter with
  | some _, some _ => jsGtKey ci (optKey cellBefore) && jsLtKey ci (optKey cellAfter)
  | none, some _ => jsLtKey ci (optKey cellAfter)
  | some _, none => jsGtKey ci (optKey cellBefore)
  | none, none => false

/-- `moveCellBetween(cell, cellBefore, cellAfter, actorId, jitterProvider)`:
null when the cell has no index or is already in place, otherwise a
`v2.CellMoved` event with a fresh index between the bounds. -/
def moveCellBetween (cell : CellReference) (cellBefore cellAfter : Option CellReference)
    (actorId : Option String) (j : JitterStep) : Except Err (Option CellMoved2) :=
  match cell.fractionalIndex with
  | none => .ok none
  | some ci =>
      if ci.isEmpty then .ok none
      else if moveStraddles ci cellBefore cellAfter then .ok none
      else do
        let idx ← fractionalIndexBetween (optKey cellBefore) (optKey cellAfter) j
        return some ⟨cell.id, idx, actorId⟩

/-- Outcome record of `moveCellWithRebalancing`. -/
structure MoveRebalanceOutcome where
  moveEvent : Option CellMoved2
  rebalanceResult : Option RebalanceResult
  needsRebalancing : Bool
deriving DecidableEq, Repr

/-- The shared tail of `moveCellWithRebalancing` after the try/catch. -/
def moveRebalanceFallback (allCells : List CellReference) (actorId : String)
    (jp : Nat → JitterStep) : Except Err MoveRebalanceOutcome :=
  if needsRebalancing allCells none then do
    let r ← rebalanceCellIndices allCells jp (actorId ++ "-rebalance") 2
    return ⟨none, some r, true⟩
  else .ok ⟨none, none, false⟩

/-- `moveCellWithRebalancing(cell, cellBefore, cellAfter, allCells,
{ actorId, jitterProvider })`; only the `No string exists between` error is
caught, and a null move event also falls through to the rebalance check. -/
def moveCellWithRebalancing (cell : CellReference) (cellBefore cellAfter : Option CellReference)
    (allCells : List CellReference) (actorId : String) (j0 : JitterStep)
    (jp : Nat → JitterStep) : Except Err MoveRebalanceOutcome :=
  match moveCellBetween cell cellBefore cellAfter (some actorId) j0 with
  | .ok (some ev) => .ok ⟨some ev, none, false⟩
  | .ok none => moveRebalanceFallback allCells actorId jp
  | .error .emptyInterval => moveRebalanceFallback allCells actorId jp
  | .error e => .error e

/-- `findIndex` returning `-1` when absent. -/
def findIdxInt (l : List CellReference) (i : String) : Int :=
  match l.findIdx? (fun c => c.id = i) with
  | some n => (n : Int)
  | none => -1

/-- `{ ...(actorId && { actorId }) }` plus the `actorId = "user"` default:
absent and empty actor ids fall back to `"user"`. -/
def effectiveActor (a : Option String) : String :=
  match a with
  | some s => if s = "" then "user" else s
  | none => "user"

/-- `MoveOperationResult` record. -/
structure MoveOperationResult where
  events : List CellMoved2
  moved : Bool
  needsRebalancing : Bool
  rebalanceCount : Option Nat
deriving DecidableEq, Repr

/-- The target-position computation of `moveCellBetweenWithRebalancing`. -/
def moveTargetPosition (cellBefore cellAfter : Option CellReference)
    (allCells : List CellReference) : Int :=
  match cellBefore, cellAfter with
  | some b, some _ => findIdxInt allCells b.id + 1
  | some b, none => findIdxInt allCells b.id + 1
  | none, some a => findIdxInt allCells a.id
  | none, none => (allCells.length : Int) - 1

/-- `moveCellBetweenWithRebalancing(cell, cellBefore, cellAfter, allCells,
actorId, jitterProvider)`. -/
def moveCellBetweenWithRebalancing (cell : CellReference)
    (cellBefore cellAfter : Option CellReference) (allCells : List CellReference)
    (actorId : Option String) (j0 : JitterStep) (jp : Nat → JitterStep) :
    Except Err MoveOperationResult :=
  match cell.fractionalIndex with
  | none => .ok ⟨[], false, false, none⟩
  | some ci =>
      if ci.isEmpty then .ok ⟨[], false, false, none⟩
      else if findIdxInt allCells cell.id = moveTargetPosition cellBefore cellAfter allCells then
        .ok ⟨[], false, false, none⟩
      else do
        let result ← moveCellWithRebalancing cell cellBefore cellAfter allCells
          (effectiveActor actorId) j0 jp
        match result.needsRebalancing, result.rebalanceResult with
        | true, some r => return ⟨r.events, true, true, some r.newIndices.length⟩
        | _, _ =>
            match result.moveEvent with
            | some ev => return ⟨[ev], true, false, none⟩
            | none => return ⟨[], false, false, none⟩

/-- JavaScript default `Array.sort()` on strings. -/
def strLeB (x y : Str) : Bool := !strLtB y x

/-- `calculateInsertionIndexAfterRebalancing(insertPosition,
rebalanceResult, jitterProvider)`. -/
def calculateInsertionIndexAfterRebalancing (insertPosition : Int) (r : RebalanceResult)
    (j1 : JitterStep) : Except Err Str :=
  if insertPosition = 0 then
    fractionalIndexBetween none (getStrAt ((r.newIndices.map (fun p => p.2)).insertionSort (fun x y => strLeB x y = true)) 0) j1
  else if insertPosition ≥ (((r.newIndices.map (fun p => p.2)).insertionSort (fun x y => strLeB x y = true)).length : Int) then
    fractionalIndexBetween
      (getStrAt ((r.newIndices.map (fun p => p.2)).insertionSort (fun x y => strLeB x y = true))
        ((((r.newIndices.map (fun p => p.2)).insertionSort (fun x y => strLeB x y = true)).length : Int) - 1)) none j1
  else
    fractionalIndexBetween
      (getStrAt ((r.newIndices.map (fun p => p.2)).insertionSort (fun x y => strLeB x y = true)) (insertPosition - 1))
      (getStrAt ((r.newIndices.map (fun p => p.2)).insertionSort (fun x y => strLeB x y = true)) insertPosition) j1

/-- Result of `fractionalIndexBetweenWithFallback`: the index plus the
optional rebalance plan. -/
structure FallbackResult where
  index : Str
  needsRebalancing : Bool
  rebalanceResult : Option RebalanceResult
deriving DecidableEq, Repr

/-- `insertPosition !== undefined ? insertPosition : allCells.length`: the
position handed to `calculateInsertionIndexAfterRebalancing`. -/
def fallbackPosition (allCells : List CellReference) (insertPosition : Option Int) : Int :=
  match insertPosition with
  | some p => p
  | none => (allCells.length : Int)

/-- The catch branch of `fractionalIndexBetweenWithFallback`; the original
error is re-thrown when no rebalancing context applies. Note that the
rebalance is invoked with only the jitter provider, so `actorId` takes its
`"system"` default. -/
def fallbackRebalance (allCells : List CellReference) (insertPosition : Option Int)
    (jp : Nat → JitterStep) (j1 : JitterStep) (origErr : Err) : Except Err FallbackResult :=
  if 0 < allCells.length ∧ needsRebalancing allCells insertPosition = true then do
    let r ← rebalanceCellIndices allCells jp "system" 2
    let idx ← calculateInsertionIndexAfterRebalancing
      (fallbackPosition allCells insertPosition) r j1
    return ⟨idx, true, some r⟩
  else .error origErr

/-- `fractionalIndexBetweenWithFallback(a, b, { allCells, insertPosition,
jitterProvider })`. -/
def fractionalIndexBetweenWithFallback (a b : Option Str) (allCells : List CellReference)
    (insertPosition : Option Int) (j0 : JitterStep) (jp : Nat → JitterStep) (j1 : JitterStep) :
    Except Err FallbackResult :=
  match fractionalIndexBetween a b j0 with
  | .ok idx => .ok ⟨idx, false, none⟩
  | .error .emptyInterval => fallbackRebalance allCells insertPosition jp j1 .emptyInterval
  | .error .invalidRange => fallbackRebalance allCells insertPosition jp j1 .invalidRange
  | .error e => .error e

/-- `CellOperationResult` record. -/
structure CellOperationResult where
  events : List CellOpEvent
  newCellId : String
  needsRebalancing : Bool
  rebalanceCount : Option Nat
deriving DecidableEq, Repr

/-- The cell data handed to `createCellBetween`. -/
structure CellDataIn where
  id : String
  cellType : String
  createdBy : String
deriving DecidableEq, Repr

/-- The `(previousKey, nextKey)` resolution of `createCellBetween`,
including the insert-after-greatest special case when both references are
null and cells exist. -/
def resolvedKeys (cellBefore cellAfter : Option CellReference)
    (allCells : List CellReference) : Option Str × Option Str :=
  if cellBefore.isNone && cellAfter.isNone && !allCells.isEmpty then
    match (sortCells allCells).getLast? with
    | some lastCell =>
        match lastCell.fractionalIndex with
        | some s => if s.isEmpty then (optKey cellBefore, optKey cellAfter) else (some s, none)
        | none => (optKey cellBefore, optKey cellAfter)
    | none => (optKey cellBefore, optKey cellAfter)
  else (optKey cellBefore, optKey cellAfter)

/-- The insert-position computation of `createCellBetween`. -/
def insertPositionOf (cellBefore cellAfter : Option CellReference)
    (allCells : List CellReference) : Int :=
  match cellBefore, cellAfter with
  | some b, some _ => findIdxInt allCells b.id + 1
  | some b, none => findIdxInt allCells b.id + 1
  | none, some a => findIdxInt allCells a.id
  | none, none => (allCells.length : Int)

/-- `createCellBetween(cellData, cellBefore, cellAfter, allCells,
jitterProvider)`: rebalance events (if any) followed by one
`v2.CellCreated`. -/
def createCellBetween (cellData : CellDataIn) (cellBefore cellAfter : Option CellReference)
    (allCells : List CellReference) (j0 : JitterStep) (jp : Nat → JitterStep)
    (j1 : JitterStep) : Except Err CellOperationResult := do
  let result ← fractionalIndexBetweenWithFallback
    (resolvedKeys cellBefore cellAfter allCells).1
    (resolvedKeys cellBefore cellAfter allCells).2
    allCells (some (insertPositionOf cellBefore cellAfter allCells)) j0 jp j1
  return ⟨(match result.rebalanceResult with
      | some r => r.events.map CellOpEvent.moved
      | none => []) ++
      [CellOpEvent.created ⟨cellData.id, cellData.cellType, cellData.createdBy, result.index⟩],
    cellData.id,
    result.needsRebalancing,
    (match result.rebalanceResult with
      | some r => some r.newIndices.length
      | none => none)⟩

/-! ### Output system: media containers and representations -/

/-- The tagged media-container union: `inline { data, metadata? }` or
`artifact { artifactId, metadata? }`. Inline data is stored after the
`String(...)` coercion, so it is modelled as a string. -/
inductive MediaContainer where
  | inl (data : String) (metadata : Option String)
  | artifact (artifactId : String) (metadata : Option String)
deriving DecidableEq, Repr

/-- `Record<string, MediaContainer>` with first-key-wins lookup. -/
abbrev Representations := List (String × MediaContainer)

/-- `representations[mimeType]` (present keys are truthy containers). -/
def repLookup (r : Representations) (m : String) : Option MediaContainer :=
  (r.find? (fun p => p.1 = m)).map (fun p => p.2)

/-- The default `preferredMimeTypes` priority list of
`selectPrimaryRepresentation`. -/
def defaultPreferredMimeTypes : List String :=
  ["application/vnd.plotly.v1+json",
   "application/vnd.vegalite.v6+json",
   "application/vnd.vegalite.v5+json",
   "application/vnd.vegalite.v4+json",
   "application/vnd.vegalite.v3+json",
   "application/vnd.vegalite.v2+json",
   "application/vnd.vega.v5+json",
   "application/vnd.vega.v4+json",
   "application/vnd.vega.v3+json",
   "application/vnd.jupyter.widget-view+json",
   "application/vnd.jupyter.widget-state+json",
   "application/vnd.dataresource+json",
   "application/vdom.v1+json",
   "application/geo+json",
   "application/json",
   "application/javascript",
   "text/html",
   "image/svg+xml",
   "image/png",
   "image/jpeg",
   "image/gif",
   "text/latex",
   "text/markdown",
   "text/plain"]

/-- `selectPrimaryRepresentation(representations, preferredMimeTypes)`:
first preferred MIME type present wins. -/
def selectPrimaryRepresentation (reps : Representations) :
    List String → Option (String × MediaContainer)
  | [] => none
  | m :: rest =>
      match repLookup reps m with
      | some c => some (m, c)
      | none => selectPrimaryRepresentation reps rest

/-- `String(container.data || "")` for an inline container, `""` for an
artifact. -/
def containerInlineData (c : MediaContainer) : String :=
  match c with
  | .inl d _ => d
  | .artifact _ _ => ""

/-! ### State tables and operations -/

/-- A row of the `outputs` table. -/
structure OutputRow where
  id : String
  cellId : String
  outputType : String
  position : Int
  streamName : Option String
  executionCount : Option Int
  displayId : Option String
  data : Option String
  artifactId : Option String
  mimeType : Option String
  metadata : Option String
  representations : Option Representations
deriving DecidableEq, Repr

/-- A row of the `pendingClears` table (keyed by `cellId`). -/
structure PendingClearRow where
  cellId : String
  clearedBy : String
deriving DecidableEq, Repr

/-- A row of the `presence` table (keyed by `userId`). -/
structure PresenceRow where
  userId : String
  cellId : Option String
deriving DecidableEq, Repr

/-- A row of the `outputDeltas` table. -/
structure OutputDeltaRow where
  id : String
  outputId : String
  delta : String
  sequenceNumber : Int
deriving DecidableEq, Repr

/-- The tables a materializer of the claims under study can touch. -/
structure TablesState where
  outputs : List OutputRow
  pendingClears : List PendingClearRow
  presence : List PresenceRow
  outputDeltas : List OutputDeltaRow
deriving DecidableEq, Repr

/-- The table operations produced by the materializers. -/
inductive TableOp where
  | outputsInsertReplace (row : OutputRow)
  | outputsDeleteByCell (cellId : String)
  | outputsUpdateData (outputId : String) (data : String)
  | outputsUpdateDisplays (displayId : String) (data mimeType : String) (reps : Representations)
  | pendingClearsUpsert (cellId clearedBy : String)
  | pendingClearsDelete (cellId : String)
  | presenceUpsert (userId : String) (cellId : Option String)
  | outputDeltasInsert (row : OutputDeltaRow)
deriving DecidableEq, Repr

/-- SQLite semantics of each operation: `ON CONFLICT ... REPLACE` deletes
the conflicting row and appends the new one; `UPDATE` edits rows in
place. -/
def applyOp (s : TablesState) : TableOp → TablesState
  | .outputsInsertReplace r =>
      { s with outputs := s.outputs.filter (fun o => o.id ≠ r.id) ++ [r] }
  | .outputsDeleteByCell c =>
      { s with outputs := s.outputs.filter (fun o => o.cellId ≠ c) }
  | .outputsUpdateData oid d =>
      { s with outputs := s.outputs.map (fun o =>
          if o.id = oid then { o with data := some d } else o) }
  | .outputsUpdateDisplays did d mt reps =>
      { s with outputs := s.outputs.map (fun o =>
          if o.displayId = some did ∧ o.outputType = "multimedia_display" then
            { o with data := some d, mimeType := some mt, representations := some reps }
          else o) }
  | .pendingClearsUpsert c who =>
      { s with pendingClears := s.pendingClears.filter (fun p => p.cellId ≠ c) ++ [⟨c, who⟩] }
  | .pendingClearsDelete c =>
      { s with pendingClears := s.pendingClears.filter (fun p => p.cellId ≠ c) }
  | .presenceUpsert u c =>
      { s with presence := s.presence.filter (fun p => p.userId ≠ u) ++ [⟨u, c⟩] }
  | .outputDeltasInsert r =>
      { s with outputDeltas := s.outputDeltas ++ [r] }

def applyOps (s : TablesState) (ops : List TableOp) : TablesState := ops.foldl applyOp s

/-- `updatePresence(userId, cellId?)` (`cellId || null`). -/
def updatePresence (u : String) (c : Option String) : TableOp :=
  .presenceUpsert u
    (match c with
     | some s => if s = "" then none else some s
     | none => none)

/-! ### Materializers -/

/-- `v1.CellOutputsCleared` payload. -/
structure CellOutputsClearedEvt where
  cellId : String
  wait : Bool
  clearedBy : String
deriving DecidableEq, Repr

/-- `v1.TerminalOutputAdded` payload. -/
structure TerminalOutputAddedEvt where
  id : String
  cellId : String
  position : Int
  content : MediaContainer
  streamName : String
deriving DecidableEq, Repr

/-- `v1.TerminalOutputAppended` / `v1.MarkdownOutputAppended` payload. -/
structure OutputAppendedEvt where
  outputId : String
  content : MediaContainer
deriving DecidableEq, Repr

/-- `v2.TerminalOutputAppended` / `v2.MarkdownOutputAppended` payload. -/
structure OutputAppended2Evt where
  id : String
  outputId : String
  delta : String
  sequenceNumber : Int
deriving DecidableEq, Repr

/-- `v1.MultimediaDisplayOutputAdded` payload. -/
structure MultimediaDisplayOutputAddedEvt where
  id : String
  cellId : String
  position : Int
  representations : Representations
  displayId : Option String
deriving DecidableEq, Repr

/-- `v1.MultimediaDisplayOutputUpdated` payload. -/
structure MultimediaDisplayOutputUpdatedEvt where
  displayId : String
  representations : Representations
deriving DecidableEq, Repr

/-- The pending-clear preamble shared by every output-add materializer:
query `pendingClears` for the cell and, when an entry exists, delete the
cell's outputs and the entry. -/
def pendingClearOps (cellId : String) (s : TablesState) : List TableOp :=
  match s.pendingClears.find? (fun p => p.cellId = cellId) with
  | some _ => [.outputsDeleteByCell cellId, .pendingClearsDelete cellId]
  | none => []

/-- The `v1.CellOutputsCleared` materializer. -/
def materializeCellOutputsCleared (e : CellOutputsClearedEvt) : List TableOp :=
  (if e.wait then [.pendingClearsUpsert e.cellId e.clearedBy]
   else [.outputsDeleteByCell e.cellId]) ++
    (if e.clearedBy ≠ "" then [updatePresence e.clearedBy (some e.cellId)] else [])

/-- The row inserted by `v1.TerminalOutputAdded`. -/
def terminalRow (e : TerminalOutputAddedEvt) : OutputRow :=
  { id := e.id, cellId := e.cellId, outputType := "terminal", position := e.position,
    streamName := some e.streamName, executionCount := none, displayId := none,
    data := (match e.content with
      | .inl d _ => some d
      | .artifact _ _ => none),
    artifactId := (match e.content with
      | .artifact a _ => some a
      | .inl _ _ => none),
    mimeType := some "text/plain",
    metadata := (match e.content with
      | .inl _ m => m
      | .artifact _ m => m),
    representations := none }

/-- The `v1.TerminalOutputAdded` materializer. -/
def materializeTerminalOutputAdded (e : TerminalOutputAddedEvt) (s : TablesState) :
    List TableOp :=
  pendingClearOps e.cellId s ++ [.outputsInsertReplace (terminalRow e)]

/-- The `v1.TerminalOutputAppended` materializer (deprecated): no ops when
the output row is unknown, otherwise concatenate onto its data. -/
def materializeTerminalOutputAppended (e : OutputAppendedEvt) (s : TablesState) :
    List TableOp :=
  match s.outputs.find? (fun o => o.id = e.outputId) with
  | none => []
  | some existingOutput =>
      [.outputsUpdateData e.outputId
        (existingOutput.data.getD "" ++
          (match e.content with
           | .inl d _ => d
           | .artifact _ _ => ""))]

/-- The `v2.TerminalOutputAppended` materializer: an unconditional
`outputDeltas` insert (it takes no query context at all). -/
def materializeTerminalOutputAppended2 (e : OutputAppended2Evt) : List TableOp :=
  [.outputDeltasInsert ⟨e.id, e.outputId, e.delta, e.sequenceNumber⟩]

/-- The `v2.MarkdownOutputAppended` materializer: identical unconditional
insert. -/
def materializeMarkdownOutputAppended2 (e : OutputAppended2Evt) : List TableOp :=
  [.outputDeltasInsert ⟨e.id, e.outputId, e.delta, e.sequenceNumber⟩]

/-- `updateExistingDisplays(displayId, representations, ctx)`: update all
`multimedia_display` rows with the display id in place, or nothing when
none exist or no primary representation is recognised. -/
def updateExistingDisplays (displayId : String) (reps : Representations) (s : TablesState) :
    List TableOp :=
  if (s.outputs.filter (fun o =>
      o.displayId = some displayId ∧ o.outputType = "multimedia_display")).isEmpty then []
  else
    match selectPrimaryRepresentation reps defaultPreferredMimeTypes with
    | none => []
    | some (mt, c) => [.outputsUpdateDisplays displayId (containerInlineData c) mt reps]

/-- `displayId || null` storage and the `if (displayId)` truthiness test. -/
def truthyDisplayId (d : Option String) : Option String :=
  match d with
  | some s => if s = "" then none else some s
  | none => none

/-- The row inserted by `v1.MultimediaDisplayOutputAdded`. -/
def multimediaDisplayRow (e : MultimediaDisplayOutputAddedEvt) : OutputRow :=
  { id := e.id, cellId := e.cellId, outputType := "multimedia_display",
    position := e.position, streamName := none, executionCount := none,
    displayId := truthyDisplayId e.displayId,
    data := some (match selectPrimaryRepresentation e.representations
        defaultPreferredMimeTypes with
      | some (_, c) => containerInlineData c
      | none => ""),
    artifactId := none,
    mimeType := some (match selectPrimaryRepresentation e.representations
        defaultPreferredMimeTypes with
      | some (mt, _) => mt
      | none => "text/plain"),
    metadata := none,
    representations := some e.representations }

/-- The `v1.MultimediaDisplayOutputAdded` materializer: pending-clear
preamble, in-place update of matching display rows, then the insert. -/
def materializeMultimediaDisplayOutputAdded (e : MultimediaDisplayOutputAddedEvt)
    (s : TablesState) : List TableOp :=
  pendingClearOps e.cellId s ++
    (match truthyDisplayId e.displayId with
     | some d => updateExistingDisplays d e.representations s
     | none => []) ++
    [.outputsInsertReplace (multimediaDisplayRow e)]

/-- The `v1.MultimediaDisplayOutputUpdated` materializer: update only,
never an insert. -/
def materializeMultimediaDisplayOutputUpdated (e : MultimediaDisplayOutputUpdatedEvt)
    (s : TablesState) : List TableOp :=
  updateExistingDisplays e.displayId e.representations s

/-! ### Applying one event to the state -/

def applyCellOutputsCleared (s : TablesState) (e : CellOutputsClearedEvt) : TablesState :=
  applyOps s (materializeCellOutputsCleared e)

def applyTerminalOutputAdded (s : TablesState) (e : TerminalOutputAddedEvt) : TablesState :=
  applyOps s (materializeTerminalOutputAdded e s)

def applyTerminalOutputAppended (s : TablesState) (e : OutputAppendedEvt) : TablesState :=
  applyOps s (materializeTerminalOutputAppended e s)

def applyTerminalOutputAppended2 (s : TablesState) (e : OutputAppended2Evt) : TablesState :=
  applyOps s (materializeTerminalOutputAppended2 e)

def applyMarkdownOutputAppended2 (s : TablesState) (e : OutputAppended2Evt) : TablesState :=
  applyOps s (materializeMarkdownOutputAppended2 e)

def applyMultimediaDisplayOutputAdded (s : TablesState)
    (e : MultimediaDisplayOutputAddedEvt) : TablesState :=
  applyOps s (materializeMultimediaDisplayOutputAdded e s)

def applyMultimediaDisplayOutputUpdated (s : TablesState)
    (e : MultimediaDisplayOutputUpdatedEvt) : TablesState :=
  applyOps s (materializeMultimediaDisplayOutputUpdated e s)

/-! ### Claim theorems: index algebra -/

theorem isValid_iff {s : Str} :
    isValidFractionalIndex s = true ↔ s ≠ [] ∧ allDigits s = true := by
  simp [isValidFractionalIndex, List.isEmpty_iff]

theorem dChar_eq {v : Nat} {c : Char} (h : digitsList.get? v = some c) : dChar v = c := by
  unfold dChar
  have hv : v < digitsList.length := by
    by_contra hcon
    rw [List.get?_eq_getElem?, List.getElem?_eq_none (by omega)] at h
    cases h
  rw [List.get?_eq_getElem?, List.getElem?_eq_getElem hv] at h
  cases h
  exact List.getD_eq_getElem digitsList ' ' hv

/-- C1: for valid base-36 indices `a < b`, whenever `generateKeyBetween`
returns a key `k` it satisfies `a < k < b` and `isValidFractionalIndex k`;
and the same holds for the jittered wrapper `fractionalIndexBetween` under
any jitter draw. -/
theorem C1_between_strictly_between (a b k k2 : Str) (j : JitterStep)
    (ha : isValidFractionalIndex a = true) (hb : isValidFractionalIndex b = true)
    (hab : strLtB a b = true)
    (hk : generateKeyBetween (some a) (some b) = .ok k)
    (hk2 : fractionalIndexBetween (some a) (some b) j = .ok k2) :
    (strLtB a k = true ∧ strLtB k b = true ∧ isValidFractionalIndex k = true) ∧
      (strLtB a k2 = true ∧ strLtB k2 b = true ∧ isValidFractionalIndex k2 = true) := by
  obtain ⟨hae, had⟩ := isValid_iff.mp ha
  obtain ⟨hbe, hbd⟩ := isValid_iff.mp hb
  constructor
  · obtain ⟨_, h1, h2⟩ := generateKeyBetween_both hae hbe hk
    have hv := generateKeyBetween_both_valid hae hbe had hbd hk
    exact ⟨h1, h2, isValid_iff.mpr hv⟩
  · obtain ⟨h1, h2⟩ := fractionalIndexBetween_both hae hbe hk2
    have hv := fractionalIndexBetween_both_valid hae hbe had hbd hk2
    exact ⟨h1, h2, isValid_iff.mpr hv⟩

theorem C1_witness :
    isValidFractionalIndex "a".toList = true ∧ isValidFractionalIndex "c".toList = true ∧
      strLtB "a".toList "c".toList = true ∧
      ((strLtB "a".toList "b".toList = true ∧ strLtB "b".toList "c".toList = true ∧
          isValidFractionalIndex "b".toList = true) ∧
        (strLtB "a".toList "bz".toList = true ∧ strLtB "bz".toList "c".toList = true ∧
          isValidFractionalIndex "bz".toList = true)) :=
  ⟨by decide, by decide, by decide,
    C1_between_strictly_between "a".toList "c".toList "b".toList "bz".toList ⟨true, 35⟩
      (by decide) (by decide) (by decide) (by decide) (by decide)⟩

/-- C4 counterexample: `"0"` is a valid non-empty index, but
`generateKeyBefore("0") = "00"`, which is not lexicographically below
`"0"` (the all-zeros branch prepends a zero, producing a larger string). -/
theorem C4_counterexample :
    isValidFractionalIndex "0".toList = true ∧
      generateKeyBefore "0".toList = .ok "00".toList ∧
      strLtB "00".toList "0".toList = false := by decide

/-- C4 (amended): for every valid non-empty `b` containing a non-zero
character, `generateKeyBefore(b)` returns a valid index strictly below
`b`; and for every valid non-empty `a`, `generateKeyAfter(a)` returns a
valid index strictly above `a`. -/
theorem C4_before_after (a b kb ka : Str)
    (ha : isValidFractionalIndex a = true) (hb : isValidFractionalIndex b = true)
    (hnz : hasNonZero b = true)
    (hkb : generateKeyBefore b = .ok kb) (hka : generateKeyAfter a = .ok ka) :
    (strLtB kb b = true ∧ isValidFractionalIndex kb = true) ∧
      (strLtB a ka = true ∧ isValidFractionalIndex ka = true) := by
  obtain ⟨hae, had⟩ := isValid_iff.mp ha
  obtain ⟨hbe, hbd⟩ := isValid_iff.mp hb
  exact ⟨⟨generateKeyBefore_lt hnz hkb, isValid_iff.mpr (generateKeyBefore_valid hbd hkb)⟩,
    ⟨generateKeyAfter_gt hka, isValid_iff.mpr (generateKeyAfter_valid had hka)⟩⟩

theorem C4_witness :
    isValidFractionalIndex "m".toList = true ∧ isValidFractionalIndex "2".toList = true ∧
      hasNonZero "2".toList = true ∧
      ((strLtB "1".toList "2".toList = true ∧ isValidFractionalIndex "1".toList = true) ∧
        (strLtB "m".toList "n".toList = true ∧ isValidFractionalIndex "n".toList = true)) :=
  ⟨by decide, by decide, by decide,
    C4_before_after "m".toList "2".toList "1".toList "n".toList
      (by decide) (by decide) (by decide) (by decide) (by decide)⟩

/-- C5 counterexample: `a = "a0"`, `b = "c"` are valid with `a < b`, both
have a character at the first differing position `i = 0`, and
`bv − av = 2 > 1`; yet `generateKeyBetween` returns `"b0"`, not the bare
`a[0..i] ⊕ valChar(⌊(av+bv)/2⌋) = "b"` claimed (the suffix of `a` after
position `i` is kept). -/
theorem C5_counterexample :
    isValidFractionalIndex "a0".toList = true ∧ isValidFractionalIndex "c".toList = true ∧
      strLtB "a0".toList "c".toList = true ∧
      commonPrefixLen "a0".toList "c".toList = 0 ∧
      charToValue 'a' = .ok 10 ∧ charToValue 'c' = .ok 12 ∧
      generateKeyBetween (some "a0".toList) (some "c".toList) = .ok "b0".toList ∧
      "b0".toList ≠ "a0".toList.take 0 ++ [dChar ((10 + 12) / 2)] := by decide

/-- C5 (amended): in the divergent-character case with `bv − av > 1`,
`generateKeyBetween(a, b)` returns the common prefix `a[0..i]`, the
midpoint character `valChar(⌊(av+bv)/2⌋)`, and then the remainder
`a[i+1..]` of `a` (not the bare prefix-plus-midpoint). -/
theorem C5_divergent_midpoint (a b k : Str) (i av bv : Nat) (ac bc : Char)
    (hk : generateKeyBetween (some a) (some b) = .ok k)
    (hi : commonPrefixLen a b = i) (hia : i < a.length)
    (hac : a.get? i = some ac) (hbc : b.get? i = some bc)
    (hav : charToValue ac = .ok av) (hbv : charToValue bc = .ok bv)
    (hgap : av + 1 < bv) :
    k = a.take i ++ [dChar ((av + bv) / 2)] ++ a.drop (i + 1) := by
  have hae : a ≠ [] := by
    intro hcontra
    subst hcontra
    simp at hia
  have hib : i < b.length := by
    by_contra hcon
    rw [List.get?_eq_getElem?, List.getElem?_eq_none (by omega)] at hbc
    cases hbc
  have hbe : b ≠ [] := by
    intro hcontra
    subst hcontra
    simp at hib
  unfold generateKeyBetween at hk
  simp only [Option.getD_some] at hk
  rw [if_neg (by simp [List.isEmpty_iff, hae, hbe]), if_neg (by simp [List.isEmpty_iff, hae]),
    if_neg (by simp [List.isEmpty_iff, hbe])] at hk
  unfold gkbMain at hk
  rw [hi] at hk
  split at hk
  · cases hk
  · rw [if_neg (by omega), if_neg (by omega)] at hk
    simp only [hac, hbc] at hk
    unfold gkbCaseB at hk
    rw [hav, except_bind_ok, hbv, except_bind_ok] at hk
    rw [if_pos (by omega)] at hk
    have hmidlt : (av + bv) / 2 < 36 := by
      have := (charToValue_ok hbv).1
      omega
    obtain ⟨c, hc, hcget⟩ := valueToChar_total hmidlt
    rw [hc, except_bind_ok, except_pure, Except.ok.injEq] at hk
    rw [← hk, dChar_eq hcget]

theorem C5_witness :
    generateKeyBetween (some "a0".toList) (some "c".toList) = .ok "b0".toList ∧
      "b0".toList =
        "a0".toList.take 0 ++ [dChar ((10 + 12) / 2)] ++ "a0".toList.drop 1 :=
  ⟨by decide,
    C5_divergent_midpoint "a0".toList "c".toList "b0".toList 0 10 12 'a' 'c'
      (by decide) (by decide) (by decide) (by decide) (by decide) (by decide) (by decide)
      (by decide)⟩

/-! ### Claim theorems: materializers -/

/-- C10: the v2 append materializers check nothing: a delta row is
inserted unconditionally (for any state, in particular one holding no
output with the referenced `outputId`), outputs are untouched, and so
orphan delta rows are possible. -/
theorem C10_v2_appends_unconditional (s : TablesState) (e e2 : OutputAppended2Evt) :
    materializeTerminalOutputAppended2 e =
        [.outputDeltasInsert ⟨e.id, e.outputId, e.delta, e.sequenceNumber⟩] ∧
      (applyTerminalOutputAppended2 s e).outputDeltas =
        s.outputDeltas ++ [⟨e.id, e.outputId, e.delta, e.sequenceNumber⟩] ∧
      (applyTerminalOutputAppended2 s e).outputs = s.outputs ∧
      materializeMarkdownOutputAppended2 e2 =
        [.outputDeltasInsert ⟨e2.id, e2.outputId, e2.delta, e2.sequenceNumber⟩] ∧
      (applyMarkdownOutputAppended2 s e2).outputDeltas =
        s.outputDeltas ++ [⟨e2.id, e2.outputId, e2.delta, e2.sequenceNumber⟩] ∧
      (applyMarkdownOutputAppended2 s e2).outputs = s.outputs :=
  ⟨rfl, rfl, rfl, rfl, rfl, rfl⟩

/-- C9: `v1.TerminalOutputAppended` with an unknown `outputId` produces no
table operations and leaves the state unchanged; with a known row it
concatenates the inline content onto that row's data. -/
theorem C9_v1_append_existence_check (s1 s2 : TablesState) (e1 e2 : OutputAppendedEvt)
    (r : OutputRow) (d : String) (md : Option String)
    (h1 : s1.outputs.find? (fun o => o.id = e1.outputId) = none)
    (h2 : s2.outputs.find? (fun o => o.id = e2.outputId) = some r)
    (hc : e2.content = .inl d md) :
    (materializeTerminalOutputAppended e1 s1 = [] ∧ applyTerminalOutputAppended s1 e1 = s1) ∧
      ((applyTerminalOutputAppended s2 e2).outputs =
          s2.outputs.map (fun o =>
            if o.id = e2.outputId then { o with data := some (r.data.getD "" ++ d) } else o) ∧
        (applyTerminalOutputAppended s2 e2).pendingClears = s2.pendingClears ∧
        (applyTerminalOutputAppended s2 e2).outputDeltas = s2.outputDeltas) := by
  constructor
  · constructor
    · unfold materializeTerminalOutputAppended
      rw [h1]
    · unfold applyTerminalOutputAppended materializeTerminalOutputAppended
      rw [h1]
      rfl
  · unfold applyTerminalOutputAppended materializeTerminalOutputAppended
    rw [h2, hc]
    exact ⟨rfl, rfl, rfl⟩

theorem C9_witness :
    ((⟨[], [], [], []⟩ : TablesState).outputs.find? (fun o => o.id = "o1") = none ∧
        materializeTerminalOutputAppended ⟨"o1", .inl "x" none⟩ ⟨[], [], [], []⟩ = [] ∧
        applyTerminalOutputAppended ⟨[], [], [], []⟩ ⟨"o1", .inl "x" none⟩ = ⟨[], [], [], []⟩) ∧
      ((applyTerminalOutputAppended
            ⟨[⟨"o2", "c", "terminal", 0, some "stdout", none, none, some "hi", none,
              some "text/plain", none, none⟩], [], [], []⟩
            ⟨"o2", .inl "!" none⟩).outputs =
          [⟨"o2", "c", "terminal", 0, some "stdout", none, none, some "hi!", none,
            some "text/plain", none, none⟩]) := by
  have hmain := C9_v1_append_existence_check ⟨[], [], [], []⟩
    ⟨[⟨"o2", "c", "terminal", 0, some "stdout", none, none, some "hi", none,
      some "text/plain", none, none⟩], [], [], []⟩
    ⟨"o1", .inl "x" none⟩ ⟨"o2", .inl "!" none⟩
    ⟨"o2", "c", "terminal", 0, some "stdout", none, none, some "hi", none,
      some "text/plain", none, none⟩ "!" none (by decide) (by decide) (by decide)
  refine ⟨⟨by decide, hmain.1.1, hmain.1.2⟩, ?_⟩
  rw [hmain.2.1]
  decide

/-! ### C2: the pending-clear protocol -/

theorem pending_find_filtered_none {l : List PendingClearRow} {c : String} :
    (l.filter (fun p => p.cellId ≠ c)).find? (fun p => p.cellId = c) = none := by
  apply List.find?_eq_none.mpr
  intro x hx
  have hmem := (List.mem_filter.mp hx).2
  simp only [ne_eq, decide_not, Bool.not_eq_true', decide_eq_false_iff_not] at hmem
  simp [hmem]

theorem pending_find_upsert {l : List PendingClearRow} {c cb : String} :
    ((l.filter (fun p => p.cellId ≠ c)) ++ [(⟨c, cb⟩ : PendingClearRow)]).find?
      (fun p => p.cellId = c) = some (⟨c, cb⟩ : PendingClearRow) := by
  rw [List.find?_append, pending_find_filtered_none]
  simp [List.find?]

/-- C2: pending-clear protocol for a cell holding outputs `{P, Q}`.
`[Clear{wait=true}, Add(x), Add(y)]` leaves exactly the rows of `x` and
`y` for the cell; `[Clear{wait=true}]` alone leaves the outputs unchanged
and only upserts the `pendingClears` row for the cell; and any
`TerminalOutputAdded` on a state holding a pending clear for its cell
first deletes the cell's outputs and the pending-clear entry, then
inserts the new row. -/
theorem C2_pending_clear_protocol (s t : TablesState) (c cb : String) (P Q : OutputRow)
    (x y z : TerminalOutputAddedEvt) (pc : PendingClearRow)
    (hPQ : s.outputs.filter (fun o => o.cellId = c) = [P, Q])
    (hxc : x.cellId = c) (hyc : y.cellId = c) (hxy : x.id ≠ y.id)
    (hfind : t.pendingClears.find? (fun p => p.cellId = z.cellId) = some pc) :
    ((applyTerminalOutputAdded (applyTerminalOutputAdded
          (applyCellOutputsCleared s ⟨c, true, cb⟩) x) y).outputs.filter
        (fun o => o.cellId = c) = [terminalRow x, terminalRow y]) ∧
      ((applyCellOutputsCleared s ⟨c, true, cb⟩).outputs = s.outputs ∧
        (applyCellOutputsCleared s ⟨c, true, cb⟩).pendingClears =
          s.pendingClears.filter (fun p => p.cellId ≠ c) ++ [⟨c, cb⟩]) ∧
      ((applyTerminalOutputAdded t z).outputs =
          (t.outputs.filter (fun o => o.cellId ≠ z.cellId)).filter
            (fun o => o.id ≠ z.id) ++ [terminalRow z] ∧
        (applyTerminalOutputAdded t z).pendingClears =
          t.pendingClears.filter (fun p => p.cellId ≠ z.cellId)) := by
  have hclear :
      (applyCellOutputsCleared s ⟨c, true, cb⟩).outputs = s.outputs ∧
        (applyCellOutputsCleared s ⟨c, true, cb⟩).pendingClears =
          s.pendingClears.filter (fun p => p.cellId ≠ c) ++ [⟨c, cb⟩] := by
    unfold applyCellOutputsCleared materializeCellOutputsCleared
    by_cases hcb : cb = "" <;>
      simp [hcb, applyOps, applyOp, updatePresence]
  have hgeneral : ∀ (t' : TablesState) (z' : TerminalOutputAddedEvt) (pc' : PendingClearRow),
      t'.pendingClears.find? (fun p => p.cellId = z'.cellId) = some pc' →
      (applyTerminalOutputAdded t' z').outputs =
          (t'.outputs.filter (fun o => o.cellId ≠ z'.cellId)).filter
            (fun o => o.id ≠ z'.id) ++ [terminalRow z'] ∧
        (applyTerminalOutputAdded t' z').pendingClears =
          t'.pendingClears.filter (fun p => p.cellId ≠ z'.cellId) := by
    intro t' z' pc' hfind'
    unfold applyTerminalOutputAdded materializeTerminalOutputAdded pendingClearOps
    rw [hfind']
    exact ⟨rfl, rfl⟩
  refine ⟨?_, hclear, hgeneral t z pc hfind⟩
  have hnone : ∀ (u : TablesState) (z' : TerminalOutputAddedEvt),
      u.pendingClears.find? (fun p => p.cellId = z'.cellId) = none →
      (applyTerminalOutputAdded u z').outputs =
          u.outputs.filter (fun o => o.id ≠ z'.id) ++ [terminalRow z'] ∧
        (applyTerminalOutputAdded u z').pendingClears = u.pendingClears := by
    intro u z' hfind'
    unfold applyTerminalOutputAdded materializeTerminalOutputAdded pendingClearOps
    rw [hfind']
    exact ⟨rfl, rfl⟩
  set s1 := applyCellOutputsCleared s ⟨c, true, cb⟩ with hs1
  have hfx : s1.pendingClears.find? (fun p => p.cellId = x.cellId) = some ⟨c, cb⟩ := by
    rw [hclear.2, hxc]
    exact pending_find_upsert
  obtain ⟨hx_out, hx_pc⟩ := hgeneral s1 x ⟨c, cb⟩ hfx
  set s2 := applyTerminalOutputAdded s1 x with hs2
  have hfy : s2.pendingClears.find? (fun p => p.cellId = y.cellId) = none := by
    rw [hx_pc, hclear.2, hxc, hyc]
    apply List.find?_eq_none.mpr
    intro q hq
    have hmem := (List.mem_filter.mp hq).2
    simp only [ne_eq, decide_not, Bool.not_eq_true', decide_eq_false_iff_not] at hmem
    simp [hmem]
  obtain ⟨hy_out, _⟩ := hnone s2 y hfy
  rw [hy_out, hx_out, hxc]
  simp only [List.filter_append]
  have hxrow_cell : (terminalRow x).cellId = c := hxc
  have hyrow_cell : (terminalRow y).cellId = c := hyc
  have hchunk1 :
      (((s1.outputs.filter (fun o => o.cellId ≠ c)).filter (fun o => o.id ≠ x.id)).filter
          (fun o => o.id ≠ y.id)).filter (fun o => o.cellId = c) = [] := by
    apply List.filter_eq_nil_iff.mpr
    intro o ho
    have h1 := (List.mem_filter.mp (List.mem_filter.mp (List.mem_filter.mp ho).1).1).2
    simp only [ne_eq, decide_not, Bool.not_eq_true', decide_eq_false_iff_not] at h1
    simp [h1]
  rw [hchunk1]
  have hxrow : ([terminalRow x].filter (fun o => o.id ≠ y.id)).filter
      (fun o => o.cellId = c) = [terminalRow x] := by
    simp [List.filter, terminalRow, hxy, hxc]
  have hyrow : [terminalRow y].filter (fun o => o.cellId = c) = [terminalRow y] := by
    simp [List.filter, terminalRow, hyc]
  rw [hxrow, hyrow]
  simp

/-- Concrete rows and events used by the pending-clear witness. -/
def c2P : OutputRow :=
  ⟨"p", "c", "terminal", 0, some "stdout", none, none, some "P", none,
    some "text/plain", none, none⟩

def c2Q : OutputRow :=
  ⟨"q", "c", "terminal", 1, some "stdout", none, none, some "Q", none,
    some "text/plain", none, none⟩

def c2state : TablesState := ⟨[c2P, c2Q], [], [], []⟩

def c2t : TablesState := ⟨[c2P], [⟨"c", "u"⟩], [], []⟩

def c2x : TerminalOutputAddedEvt := ⟨"ox", "c", 0, .inl "1" none, "stdout"⟩

def c2y : TerminalOutputAddedEvt := ⟨"oy", "c", 1, .inl "2" none, "stdout"⟩

def c2z : TerminalOutputAddedEvt := ⟨"oz", "c", 0, .inl "3" none, "stdout"⟩

theorem C2_witness :
    ((applyTerminalOutputAdded (applyTerminalOutputAdded
          (applyCellOutputsCleared c2state ⟨"c", true, "u"⟩) c2x) c2y).outputs.filter
        (fun o => o.cellId = "c") = [terminalRow c2x, terminalRow c2y]) ∧
      ((applyCellOutputsCleared c2state ⟨"c", true, "u"⟩).outputs = c2state.outputs ∧
        (applyCellOutputsCleared c2state ⟨"c", true, "u"⟩).pendingClears =
          c2state.pendingClears.filter (fun p => p.cellId ≠ "c") ++ [⟨"c", "u"⟩]) ∧
      ((applyTerminalOutputAdded c2t c2z).outputs =
          (c2t.outputs.filter (fun o => o.cellId ≠ c2z.cellId)).filter
            (fun o => o.id ≠ c2z.id) ++ [terminalRow c2z] ∧
        (applyTerminalOutputAdded c2t c2z).pendingClears =
          c2t.pendingClears.filter (fun p => p.cellId ≠ c2z.cellId)) :=
  C2_pending_clear_protocol c2state c2t "c" "u" c2P c2Q c2x c2y c2z ⟨"c", "u"⟩
    (by decide) (by decide) (by decide) (by decide) (by decide)

/-! ### C3: display-id semantics -/

/-- Filtering commutes with mapping a function that preserves the
predicate. -/
theorem filter_map_of_pred_eq {A : Type} (p : A → Bool) (f : A → A)
    (hf : ∀ x, p (f x) = p x) (l : List A) :
    (l.map f).filter p = (l.filter p).map f := by
  induction l with
  | nil => rfl
  | cons x l ih =>
      rw [List.map_cons, List.filter_cons, List.filter_cons, hf]
      by_cases hx : p x = true
      · rw [hx]
        simp only [if_true]
        rw [List.map_cons, ih]
      · rw [Bool.not_eq_true] at hx
        rw [hx]
        simp only [Bool.false_eq_true, if_false]
        exact ih

/-- In-place display updates commute with the display filter: updated rows
keep their `displayId` and `outputType`. -/
theorem filter_display_map (l : List OutputRow) (d dd mt : String) (reps : Representations) :
    ((l.map (fun o =>
        if o.displayId = some d ∧ o.outputType = "multimedia_display" then
          { o with data := some dd, mimeType := some mt, representations := some reps }
        else o)).filter
      (fun o => o.displayId = some d ∧ o.outputType = "multimedia_display")) =
    (l.filter (fun o => o.displayId = some d ∧ o.outputType = "multimedia_display")).map
      (fun o =>
        if o.displayId = some d ∧ o.outputType = "multimedia_display" then
          { o with data := some dd, mimeType := some mt, representations := some reps }
        else o) := by
  apply filter_map_of_pred_eq
  intro x
  by_cases hx : x.displayId = some d ∧ x.outputType = "multimedia_display"
  · rw [if_pos hx]
  · rw [if_neg hx]

/-- Mapped display updates keep every row id. -/
theorem filter_id_map_display (l : List OutputRow) (d dd mt : String)
    (reps : Representations) (eid : String) (hfresh : ∀ o ∈ l, o.id ≠ eid) :
    (l.map (fun o =>
        if o.displayId = some d ∧ o.outputType = "multimedia_display" then
          { o with data := some dd, mimeType := some mt, representations := some reps }
        else o)).filter (fun o => o.id ≠ eid) =
    l.map (fun o =>
        if o.displayId = some d ∧ o.outputType = "multimedia_display" then
          { o with data := some dd, mimeType := some mt, representations := some reps }
        else o) := by
  apply List.filter_eq_self.mpr
  intro o ho
  obtain ⟨oo, hoo, heq⟩ := List.mem_map.mp ho
  have hid : o.id = oo.id := by
    rw [← heq]
    by_cases hpred : oo.displayId = some d ∧ oo.outputType = "multimedia_display"
    · rw [if_pos hpred]
    · rw [if_neg hpred]
  have := hfresh oo hoo
  simp [hid, this]

/-- C3 counterexample: a state holding one `multimedia_display` row with
`displayId = "d"` and representations `R1`; materializing
`MultimediaDisplayOutputAdded` with the same display id but representations
`R2` carrying only an unrecognised MIME type leaves the old row at `R1` and
inserts the new row with `R2`: the two rows do not both carry `R2`. -/
theorem C3_counterexample :
    ((applyMultimediaDisplayOutputAdded
        ⟨[⟨"o1", "c", "multimedia_display", 0, none, none, some "d", some "1",
          none, some "text/plain", none, some [("text/plain", .inl "1" none)]⟩],
          [], [], []⟩
        ⟨"o2", "c", 1, [("application/x-custom", .inl "2" none)], some "d"⟩).outputs.filter
      (fun o => o.displayId = some "d" ∧ o.outputType = "multimedia_display")).map
      (fun o => o.representations) =
      [some [("text/plain", .inl "1" none)], some [("application/x-custom", .inl "2" none)]] ∧
    [some [("text/plain", MediaContainer.inl "1" none)],
        some [("application/x-custom", MediaContainer.inl "2" none)]] ≠
      [some [("application/x-custom", MediaContainer.inl "2" none)],
        some [("application/x-custom", MediaContainer.inl "2" none)]] := by
  constructor
  · decide
  · decide

/-- C3 (amended): with a recognised primary representation in the added
and updated bundles and no pending clear on the target cell, adding a
multimedia display output whose `displayId` matches one existing display
row updates that row in place to the new representations and inserts a
second row, leaving two rows that both carry `R2`; a subsequent
`MultimediaDisplayOutputUpdated` moves both rows to `R3` without changing
the number of output rows. When the bundle has no recognised MIME type the
in-place update is skipped (see the counterexample). -/
theorem C3_display_id_update (s : TablesState) (e : MultimediaDisplayOutputAddedEvt)
    (u : MultimediaDisplayOutputUpdatedEvt) (d : String) (r : OutputRow)
    (p2 p3 : String × MediaContainer)
    (hd : e.displayId = some d) (hdne : d ≠ "") (hud : u.displayId = d)
    (hnopc : s.pendingClears.find? (fun p => p.cellId = e.cellId) = none)
    (hrow : s.outputs.filter
      (fun o => o.displayId = some d ∧ o.outputType = "multimedia_display") = [r])
    (hfresh : ∀ o ∈ s.outputs, o.id ≠ e.id)
    (hp2 : selectPrimaryRepresentation e.representations defaultPreferredMimeTypes = some p2)
    (hp3 : selectPrimaryRepresentation u.representations defaultPreferredMimeTypes = some p3) :
    (((applyMultimediaDisplayOutputAdded s e).outputs.filter
        (fun o => o.displayId = some d ∧ o.outputType = "multimedia_display")).map
        (fun o => o.representations) =
      [some e.representations, some e.representations]) ∧
      (((applyMultimediaDisplayOutputUpdated (applyMultimediaDisplayOutputAdded s e)
            u).outputs.filter
          (fun o => o.displayId = some d ∧ o.outputType = "multimedia_display")).map
          (fun o => o.representations) =
        [some u.representations, some u.representations]) ∧
      ((applyMultimediaDisplayOutputUpdated (applyMultimediaDisplayOutputAdded s e)
          u).outputs.length =
        (applyMultimediaDisplayOutputAdded s e).outputs.length) := by
  have hrowe : (multimediaDisplayRow e).displayId = some d ∧
      (multimediaDisplayRow e).outputType = "multimedia_display" := by
    constructor
    · show truthyDisplayId e.displayId = some d
      rw [hd]
      simp [truthyDisplayId, hdne]
    · rfl
  have hrmem : r ∈ s.outputs.filter
      (fun o => decide (o.displayId = some d ∧ o.outputType = "multimedia_display")) := by
    rw [hrow]
    simp
  have hrpred := (List.mem_filter.mp hrmem).2
  simp only [decide_eq_true_eq] at hrpred
  have hs1 : (applyMultimediaDisplayOutputAdded s e).outputs =
      (s.outputs.map (fun o =>
        if o.displayId = some d ∧ o.outputType = "multimedia_display" then
          { o with data := some (containerInlineData p2.2), mimeType := some p2.1, representations := some e.representations }
        else o)) ++ [multimediaDisplayRow e] := by
    have htd : truthyDisplayId e.displayId = some d := by
      rw [hd]
      simp [truthyDisplayId, hdne]
    have hops : materializeMultimediaDisplayOutputAdded e s =
        [TableOp.outputsUpdateDisplays d (containerInlineData p2.2) p2.1 e.representations,
          TableOp.outputsInsertReplace (multimediaDisplayRow e)] := by
      unfold materializeMultimediaDisplayOutputAdded pendingClearOps updateExistingDisplays
      rw [hnopc, htd]
      simp only [hrow, hp2, List.isEmpty_cons, Bool.false_eq_true, if_false]
      rfl
    unfold applyMultimediaDisplayOutputAdded
    rw [hops]
    have hmid : (applyOp s
        (TableOp.outputsUpdateDisplays d (containerInlineData p2.2) p2.1
          e.representations)).outputs =
        s.outputs.map (fun o =>
          if o.displayId = some d ∧ o.outputType = "multimedia_display" then
            { o with data := some (containerInlineData p2.2), mimeType := some p2.1, representations := some e.representations }
          else o) := rfl
    show ((applyOp s _).outputs.filter
        (fun o => o.id ≠ (multimediaDisplayRow e).id)) ++ [multimediaDisplayRow e] = _
    rw [hmid]
    rw [filter_id_map_display s.outputs d (containerInlineData p2.2) p2.1
      e.representations (multimediaDisplayRow e).id
      (fun o ho => by
        rw [show (multimediaDisplayRow e).id = e.id from rfl]
        exact hfresh o ho)]
  have hs1filter : ((applyMultimediaDisplayOutputAdded s e).outputs.filter
      (fun o => o.displayId = some d ∧ o.outputType = "multimedia_display")) =
      [{ r with data := some (containerInlineData p2.2), mimeType := some p2.1, representations := some e.representations }, multimediaDisplayRow e] := by
    rw [hs1, List.filter_append, filter_display_map, hrow]
    simp [hrpred.1, hrpred.2, hrowe.1, hrowe.2]
  refine ⟨?_, ?_, ?_⟩
  · rw [hs1filter]
    simp [multimediaDisplayRow]
  · have hs2 : (applyMultimediaDisplayOutputUpdated (applyMultimediaDisplayOutputAdded s e)
        u).outputs =
        ((applyMultimediaDisplayOutputAdded s e).outputs.map (fun o =>
          if o.displayId = some d ∧ o.outputType = "multimedia_display" then
            { o with data := some (containerInlineData p3.2), mimeType := some p3.1, representations := some u.representations }
          else o)) := by
      unfold applyMultimediaDisplayOutputUpdated materializeMultimediaDisplayOutputUpdated
        updateExistingDisplays
      rw [hud, hs1filter]
      simp only [List.isEmpty_cons, Bool.false_eq_true, if_false, hp3]
      rfl
    rw [hs2, filter_display_map, hs1filter]
    simp [hrpred.1, hrpred.2, hrowe.1, hrowe.2]
  · unfold applyMultimediaDisplayOutputUpdated materializeMultimediaDisplayOutputUpdated
      updateExistingDisplays
    rw [hud, hs1filter]
    simp only [List.isEmpty_cons, Bool.false_eq_true, if_false, hp3]
    show ((applyMultimediaDisplayOutputAdded s e).outputs.map _).length = _
    rw [List.length_map]

/-- Concrete state and events used by the display-id witness. -/
def c3row : OutputRow :=
  ⟨"o1", "c", "multimedia_display", 0, none, none, some "d", some "1", none,
    some "text/plain", none, some [("text/plain", .inl "1" none)]⟩

def c3state : TablesState := ⟨[c3row], [], [], []⟩

def c3add : MultimediaDisplayOutputAddedEvt :=
  ⟨"o2", "c", 1, [("text/plain", .inl "2" none)], some "d"⟩

def c3upd : MultimediaDisplayOutputUpdatedEvt :=
  ⟨"d", [("text/html", .inl "3" none)]⟩

theorem C3_witness :
    (((applyMultimediaDisplayOutputAdded c3state c3add).outputs.filter
        (fun o => o.displayId = some "d" ∧ o.outputType = "multimedia_display")).map
        (fun o => o.representations) =
      [some c3add.representations, some c3add.representations]) ∧
      (((applyMultimediaDisplayOutputUpdated (applyMultimediaDisplayOutputAdded c3state c3add)
            c3upd).outputs.filter
          (fun o => o.displayId = some "d" ∧ o.outputType = "multimedia_display")).map
          (fun o => o.representations) =
        [some c3upd.representations, some c3upd.representations]) ∧
      ((applyMultimediaDisplayOutputUpdated (applyMultimediaDisplayOutputAdded c3state c3add)
          c3upd).outputs.length =
        (applyMultimediaDisplayOutputAdded c3state c3add).outputs.length) :=
  C3_display_id_update c3state c3add c3upd "d" c3row
    ("text/plain", .inl "2" none) ("text/html", .inl "3" none)
    (by decide) (by decide) (by decide) (by decide) (by decide) (by decide) (by decide)
    (by decide)

/-! ### Claim C6: rebalancing preserves relative order -/

instance : IsTrans Str (fun x y => strLtB x y = true) := ⟨fun _ _ _ => strLtB_trans⟩

/-- Strict string order is asymmetric. -/
theorem strLtB_asymm {x y : Str} (h : strLtB x y = true) : strLtB y x = false := by
  by_contra hc
  rw [Bool.not_eq_false] at hc
  have hxx := strLtB_trans h hc
  rw [strLtB_irrefl] at hxx
  cases hxx

/-- The second component of a zip entry comes from the truncated right
list. -/
theorem snd_mem_take {A : Type} : ∀ {l : List A} {m : List Str} {p : A × Str},
    p ∈ l.zip m → p.2 ∈ m.take l.length
  | [], _, _, h => by cases h
  | _ :: _, [], _, h => by cases h
  | a :: l, b :: m, p, h => by
      rw [List.zip_cons_cons] at h
      rcases List.mem_cons.mp h with he | ht
      · subst he
        simp only [List.length_cons, List.take_succ_cons]
        exact List.mem_cons_self _ _
      · have hm := snd_mem_take ht
        simp only [List.length_cons, List.take_succ_cons]
        exact List.mem_cons_of_mem _ hm

/-- A pairwise relation on the first `|l|` entries of `m` transfers to the
second components of `l.zip m`. -/
theorem pairwise_zip_right {A : Type} {R : Str → Str → Prop} :
    ∀ (l : List A) (m : List Str), (m.take l.length).Pairwise R →
      (l.zip m).Pairwise (fun p q => R p.2 q.2)
  | [], _, _ => List.Pairwise.nil
  | _ :: _, [], _ => by simp
  | a :: l, b :: m, h => by
      rw [List.zip_cons_cons]
      simp only [List.length_cons, List.take_succ_cons] at h
      rw [List.pairwise_cons] at h
      rw [List.pairwise_cons]
      refine ⟨?_, pairwise_zip_right l m h.2⟩
      intro q hq
      exact h.1 q.2 (snd_mem_take hq)

/-- C6: `rebalanceCellIndices` preserves relative order. The fresh keys at
offsets `bufferCells … bufferCells+|cells|` are strictly increasing, so
stably re-sorting the (cell, new key) assignment by the new keys leaves the
id sequence of the old-index sort unchanged; and the emitted `newIndices`
are exactly that in-order assignment restricted to cells whose key
changes. -/
theorem C6_rebalance_preserves_order (cells : List CellReference) (jp : Nat → JitterStep)
    (actorId : String) (bufferCells : Nat) (res : RebalanceResult) (ks : List Str)
    (hne : cells ≠ [])
    (h : rebalanceCellIndices cells jp actorId bufferCells = .ok res)
    (hg : generateFractionalIndices none none (cells.length + 2 * bufferCells) jp = .ok ks) :
    List.Chain' (fun x y => strLtB x y = true) ((ks.drop bufferCells).take cells.length) ∧
      ((((sortCells cells).zip (ks.drop bufferCells)).insertionSort
          (fun p q => strLeB p.2 q.2 = true)).map (fun p => p.1.id) =
        (sortCells cells).map (fun c => c.id)) ∧
      res.newIndices = (((sortCells cells).zip (ks.drop bufferCells)).filter
        (fun p => !p.2.isEmpty && decide (p.1.fractionalIndex ≠ some p.2))).map
          (fun p => (p.1.id, p.2)) := by
  have hlen0 : ¬cells.length = 0 := fun hc => hne (List.length_eq_zero.mp hc)
  unfold rebalanceCellIndices at h
  rw [if_neg hlen0, hg] at h
  simp only [except_bind_ok, except_pure, Except.ok.injEq] at h
  have hchain := (generateFractionalIndices_chain hg).1
  have hkslen := (generateFractionalIndices_chain hg).2
  have hpw : ks.Pairwise (fun x y => strLtB x y = true) := List.chain'_iff_pairwise.mp hchain
  have hslice : ((ks.drop bufferCells).take cells.length).Pairwise
      (fun x y => strLtB x y = true) :=
    List.Pairwise.sublist ((List.take_sublist _ _).trans (List.drop_sublist _ _)) hpw
  refine ⟨List.chain'_iff_pairwise.mpr hslice, ?_, ?_⟩
  · have hsc_len : (sortCells cells).length = cells.length := List.length_insertionSort _ _
    have hzp : ((sortCells cells).zip (ks.drop bufferCells)).Pairwise
        (fun p q => strLtB p.2 q.2 = true) := by
      refine @pairwise_zip_right CellReference (fun x y => strLtB x y = true)
        (sortCells cells) (ks.drop bufferCells) ?_
      rw [hsc_len]
      exact hslice
    have hzple : ((sortCells cells).zip (ks.drop bufferCells)).Pairwise
        (fun p q => strLeB p.2 q.2 = true) :=
      hzp.imp (fun hpq => by unfold strLeB; rw [strLtB_asymm hpq]; rfl)
    rw [List.Sorted.insertionSort_eq hzple]
    have hlenle : (sortCells cells).length ≤ (ks.drop bufferCells).length := by
      rw [hsc_len, List.length_drop, hkslen]
      omega
    rw [show (fun (p : CellReference × Str) => p.1.id) =
        (fun (c : CellReference) => c.id) ∘ Prod.fst from rfl,
      ← List.map_map, List.map_fst_zip _ _ hlenle]
  · rw [← h]

/-- Concrete cells for the rebalance witness. -/
def c6c1 : CellReference := ⟨"c1", some ['a'], "code"⟩

def c6c2 : CellReference := ⟨"c2", some ['a', '0'], "code"⟩

theorem C6_witness :
    List.Chain' (fun x y => strLtB x y = true)
        ((([['m'], ['n'], ['o'], ['p'], ['q'], ['r']] : List Str).drop 2).take
          [c6c1, c6c2].length) ∧
      ((((sortCells [c6c1, c6c2]).zip
            (([['m'], ['n'], ['o'], ['p'], ['q'], ['r']] : List Str).drop 2)).insertionSort
          (fun p q => strLeB p.2 q.2 = true)).map (fun p => p.1.id) =
        (sortCells [c6c1, c6c2]).map (fun c => c.id)) ∧
      (RebalanceResult.newIndices
          ⟨[("c1", ['o']), ("c2", ['p'])],
            [⟨"c1", ['o'], some "sys"⟩, ⟨"c2", ['p'], some "sys"⟩]⟩ =
        (((sortCells [c6c1, c6c2]).zip
            (([['m'], ['n'], ['o'], ['p'], ['q'], ['r']] : List Str).drop 2)).filter
          (fun p => !p.2.isEmpty && decide (p.1.fractionalIndex ≠ some p.2))).map
            (fun p => (p.1.id, p.2))) :=
  C6_rebalance_preserves_order [c6c1, c6c2] (fun _ => ⟨false, 0⟩) "sys" 2
    ⟨[("c1", ['o']), ("c2", ['p'])],
      [⟨"c1", ['o'], some "sys"⟩, ⟨"c2", ['p'], some "sys"⟩]⟩
    [['m'], ['n'], ['o'], ['p'], ['q'], ['r']]
    (by decide) (by rfl) (by rfl)


/-! ### Claim C7: actor id of rebalance events -/

/-- The rebalance `CellMoved` payload carries the given actor id. -/
def movedEventActorIs (a : String) (ev : CellMoved2) : Bool :=
  decide (ev.actorId = some a)

/-- Every `moved` member of a cell-operation event list carries the given
actor id (`created` events are exempt). -/
def movedActorIs (a : String) (ev : CellOpEvent) : Bool :=
  match ev with
  | .moved m => decide (m.actorId = some a)
  | .created _ => true

/-- Every event emitted by `rebalanceCellIndices` carries the actor id the
rebalance was called with. -/
theorem rebalance_events_actor {cells : List CellReference} {jp : Nat → JitterStep}
    {a : String} {buf : Nat} {r : RebalanceResult}
    (h : rebalanceCellIndices cells jp a buf = .ok r) :
    r.events.all (movedEventActorIs a) = true := by
  unfold rebalanceCellIndices at h
  split at h
  · rw [Except.ok.injEq] at h
    subst h
    rfl
  · cases hg : generateFractionalIndices none none (cells.length + 2 * buf) jp with
    | error e => rw [hg, except_bind_err] at h; cases h
    | ok ks =>
        rw [hg] at h
        simp only [except_bind_ok, except_pure, Except.ok.injEq] at h
        subst h
        rw [List.all_eq_true]
        intro x hx
        rcases List.mem_map.mp hx with ⟨p, _, hp⟩
        subst hp
        simp [movedEventActorIs]

/-- The fallback branch of `moveCellWithRebalancing` only ever rebalances
with the actor id suffixed `-rebalance`. -/
theorem moveRebalanceFallback_actor {allCells : List CellReference} {a : String}
    {jp : Nat → JitterStep} {out : MoveRebalanceOutcome} {r : RebalanceResult}
    (h : moveRebalanceFallback allCells a jp = .ok out)
    (hrr : out.rebalanceResult = some r) :
    r.events.all (movedEventActorIs (a ++ "-rebalance")) = true := by
  unfold moveRebalanceFallback at h
  split at h
  · cases hrb : rebalanceCellIndices allCells jp (a ++ "-rebalance") 2 with
    | error e => rw [hrb, except_bind_err] at h; cases h
    | ok r2 =>
        rw [hrb] at h
        simp only [except_bind_ok, except_pure, Except.ok.injEq] at h
        subst h
        have hr2 := Option.some.inj (show some r2 = some r from hrr)
        subst hr2
        exact rebalance_events_actor hrb
  · rw [Except.ok.injEq] at h
    subst h
    cases hrr

/-- Through `moveCellWithRebalancing` the rebalance plan, when present,
only holds events whose actor id is suffixed `-rebalance`. -/
theorem moveCellWithRebalancing_actor {cell : CellReference}
    {cb ca : Option CellReference} {allCells : List CellReference} {a : String}
    {j0 : JitterStep} {jp : Nat → JitterStep} {out : MoveRebalanceOutcome}
    {r : RebalanceResult}
    (h : moveCellWithRebalancing cell cb ca allCells a j0 jp = .ok out)
    (hrr : out.rebalanceResult = some r) :
    r.events.all (movedEventActorIs (a ++ "-rebalance")) = true := by
  unfold moveCellWithRebalancing at h
  cases hm : moveCellBetween cell cb ca (some a) j0 with
  | ok oev =>
      cases oev with
      | some ev =>
          rw [hm] at h
          rw [Except.ok.injEq] at h
          subst h
          cases hrr
      | none =>
          rw [hm] at h
          exact moveRebalanceFallback_actor h hrr
  | error e =>
      cases e with
      | emptyInterval =>
          rw [hm] at h
          exact moveRebalanceFallback_actor h hrr
      | invalidChar => rw [hm] at h; cases h
      | invalidValue => rw [hm] at h; cases h
      | invalidRange => rw [hm] at h; cases h
      | other => rw [hm] at h; cases h

/-- The catch branch of `fractionalIndexBetweenWithFallback` rebalances
with the literal actor id `"system"`. -/
theorem fallbackRebalance_actor {allCells : List CellReference} {ip : Option Int}
    {jp : Nat → JitterStep} {j1 : JitterStep} {e : Err} {fres : FallbackResult}
    {r : RebalanceResult}
    (h : fallbackRebalance allCells ip jp j1 e = .ok fres)
    (hrr : fres.rebalanceResult = some r) :
    r.events.all (movedEventActorIs "system") = true := by
  unfold fallbackRebalance at h
  split at h
  · cases hrb : rebalanceCellIndices allCells jp "system" 2 with
    | error e2 => rw [hrb, except_bind_err] at h; cases h
    | ok r2 =>
        rw [hrb, except_bind_ok] at h
        cases hci : calculateInsertionIndexAfterRebalancing
            (fallbackPosition allCells ip) r2 j1 with
        | error e3 => rw [hci, except_bind_err] at h; cases h
        | ok idx =>
            rw [hci] at h
            simp only [except_bind_ok, except_pure, Except.ok.injEq] at h
            subst h
            have hr2 := Option.some.inj (show some r2 = some r from hrr)
            subst hr2
            exact rebalance_events_actor hrb
  · cases h

/-- `fractionalIndexBetweenWithFallback` likewise only produces `"system"`
rebalance events. -/
theorem fibwf_actor {a b : Option Str} {allCells : List CellReference}
    {ip : Option Int} {j0 : JitterStep} {jp : Nat → JitterStep} {j1 : JitterStep}
    {fres : FallbackResult} {r : RebalanceResult}
    (h : fractionalIndexBetweenWithFallback a b allCells ip j0 jp j1 = .ok fres)
    (hrr : fres.rebalanceResult = some r) :
    r.events.all (movedEventActorIs "system") = true := by
  unfold fractionalIndexBetweenWithFallback at h
  cases hf : fractionalIndexBetween a b j0 with
  | ok idx =>
      rw [hf] at h
      rw [Except.ok.injEq] at h
      subst h
      cases hrr
  | error e =>
      cases e with
      | emptyInterval => rw [hf] at h; exact fallbackRebalance_actor h hrr
      | invalidRange => rw [hf] at h; exact fallbackRebalance_actor h hrr
      | invalidChar => rw [hf] at h; cases h
      | invalidValue => rw [hf] at h; cases h
      | other => rw [hf] at h; cases h

/-- C7 (amended): when `moveCellBetweenWithRebalancing` reports
rebalancing, every emitted event carries the effective actor id suffixed
`-rebalance`; but the rebalance triggered inside `createCellBetween` calls
the rebalancer without an actor id, so its moved events carry the default
actor id `"system"`, not the cell creator's id suffixed `-rebalance` (see
the counterexample). -/
theorem C7_rebalance_actor (cell : CellReference) (cb ca : Option CellReference)
    (allCells : List CellReference) (actor : Option String) (j0 : JitterStep)
    (jp : Nat → JitterStep) (res : MoveOperationResult)
    (cd : CellDataIn) (cb2 ca2 : Option CellReference) (allCells2 : List CellReference)
    (j02 : JitterStep) (jp2 : Nat → JitterStep) (j12 : JitterStep)
    (res2 : CellOperationResult)
    (hmove : moveCellBetweenWithRebalancing cell cb ca allCells actor j0 jp = .ok res)
    (hr : res.needsRebalancing = true)
    (hcreate : createCellBetween cd cb2 ca2 allCells2 j02 jp2 j12 = .ok res2) :
    res.events.all (movedEventActorIs (effectiveActor actor ++ "-rebalance")) = true ∧
      res2.events.all (movedActorIs "system") = true := by
  constructor
  · unfold moveCellBetweenWithRebalancing at hmove
    cases hci : cell.fractionalIndex with
    | none =>
        simp only [hci] at hmove
        rw [Except.ok.injEq] at hmove
        subst hmove
        cases hr
    | some ci =>
        simp only [hci] at hmove
        split at hmove
        · rw [Except.ok.injEq] at hmove
          subst hmove
          cases hr
        · split at hmove
          · rw [Except.ok.injEq] at hmove
            subst hmove
            cases hr
          · cases hm : moveCellWithRebalancing cell cb ca allCells (effectiveActor actor)
                j0 jp with
            | error e => rw [hm, except_bind_err] at hmove; cases hmove
            | ok result =>
                rw [hm, except_bind_ok] at hmove
                cases hb : result.needsRebalancing with
                | false =>
                    simp only [hb] at hmove
                    cases hme : result.moveEvent with
                    | some ev =>
                        simp only [hme, except_pure, Except.ok.injEq] at hmove
                        subst hmove
                        cases hr
                    | none =>
                        simp only [hme, except_pure, Except.ok.injEq] at hmove
                        subst hmove
                        cases hr
                | true =>
                    cases hor : result.rebalanceResult with
                    | some r =>
                        simp only [hb, hor, except_pure, Except.ok.injEq] at hmove
                        subst hmove
                        exact moveCellWithRebalancing_actor hm hor
                    | none =>
                        simp only [hb, hor] at hmove
                        cases hme : result.moveEvent with
                        | some ev =>
                            simp only [hme, except_pure, Except.ok.injEq] at hmove
                            subst hmove
                            cases hr
                        | none =>
                            simp only [hme, except_pure, Except.ok.injEq] at hmove
                            subst hmove
                            cases hr
  · unfold createCellBetween at hcreate
    cases hf : fractionalIndexBetweenWithFallback
        (resolvedKeys cb2 ca2 allCells2).1 (resolvedKeys cb2 ca2 allCells2).2
        allCells2 (some (insertPositionOf cb2 ca2 allCells2)) j02 jp2 j12 with
    | error e => rw [hf, except_bind_err] at hcreate; cases hcreate
    | ok fres =>
        rw [hf] at hcreate
        simp only [except_bind_ok, except_pure, Except.ok.injEq] at hcreate
        subst hcreate
        rw [List.all_eq_true]
        intro x hx
        rcases List.mem_append.mp hx with hx1 | hx2
        · cases hfr : fres.rebalanceResult with
          | none => rw [hfr] at hx1; cases hx1
          | some r =>
              rw [hfr] at hx1
              rcases List.mem_map.mp hx1 with ⟨m, hm, hmx⟩
              subst hmx
              have hall := fibwf_actor hf hfr
              rw [List.all_eq_true] at hall
              exact hall m hm
        · rcases List.mem_singleton.mp hx2 with rfl
          rfl

/-- Concrete cells exercising the two rebalance paths. -/
def c7c1 : CellReference := ⟨"c1", some ['a'], "code"⟩

def c7c2 : CellReference := ⟨"c2", some ['a', '0'], "code"⟩

def c7c3 : CellReference := ⟨"c3", some ['m'], "code"⟩

/-- C7 counterexample: a `createCellBetween` call by actor `"u"` whose
crowded interval triggers rebalancing; the emitted moved events carry
`actorId = "system"`, which is not `"u" ++ "-rebalance"` as the claim
requires for `createCellBetween`. -/
theorem C7_counterexample :
    createCellBetween ⟨"new", "code", "u"⟩ (some c7c1) (some c7c2) [c7c1, c7c2]
        ⟨false, 0⟩ (fun _ => ⟨false, 0⟩) ⟨false, 0⟩ =
      .ok ⟨[.moved ⟨"c1", ['o'], some "system"⟩, .moved ⟨"c2", ['p'], some "system"⟩,
          .created ⟨"new", "code", "u", ['o', 'h']⟩], "new", true, some 2⟩ ∧
      (some "system" : Option String) ≠ some ("u" ++ "-rebalance") := by
  constructor
  · rfl
  · decide

theorem C7_witness :
    (MoveOperationResult.events
        ⟨[⟨"c1", ['o'], some "u-rebalance"⟩, ⟨"c2", ['p'], some "u-rebalance"⟩,
          ⟨"c3", ['q'], some "u-rebalance"⟩], true, true, some 3⟩).all
      (movedEventActorIs (effectiveActor (some "u") ++ "-rebalance")) = true ∧
      (CellOperationResult.events
          ⟨[.moved ⟨"c1", ['o'], some "system"⟩, .moved ⟨"c2", ['p'], some "system"⟩,
            .created ⟨"new", "code", "u", ['o', 'h']⟩], "new", true, some 2⟩).all
        (movedActorIs "system") = true :=
  C7_rebalance_actor c7c3 (some c7c1) (some c7c2) [c7c1, c7c2, c7c3] (some "u")
    ⟨false, 0⟩ (fun _ => ⟨false, 0⟩)
    ⟨[⟨"c1", ['o'], some "u-rebalance"⟩, ⟨"c2", ['p'], some "u-rebalance"⟩,
      ⟨"c3", ['q'], some "u-rebalance"⟩], true, true, some 3⟩
    ⟨"new", "code", "u"⟩ (some c7c1) (some c7c2) [c7c1, c7c2]
    ⟨false, 0⟩ (fun _ => ⟨false, 0⟩) ⟨false, 0⟩
    ⟨[.moved ⟨"c1", ['o'], some "system"⟩, .moved ⟨"c2", ['p'], some "system"⟩,
      .created ⟨"new", "code", "u", ['o', 'h']⟩], "new", true, some 2⟩
    (by rfl) (by rfl) (by rfl)

/-! ### Claim C8: `moveCellBetween` no-op and bound guarantees -/

/-- The bound key handed to the algebra is never the empty string. -/
theorem optKey_ne_nil {c : Option CellReference} {s : Str} (h : optKey c = some s) :
    s ≠ [] := by
  unfold optKey at h
  cases c with
  | none => cases h
  | some r =>
      cases hri : r.fractionalIndex with
      | none => simp only [hri] at h; cases h
      | some t =>
          simp only [hri] at h
          split at h
          · cases h
          · next hne =>
              rw [Option.some.injEq] at h
              subst h
              intro hnil
              subst hnil
              exact hne rfl

/-- C8 (amended): `moveCellBetween` returns `null` when the cell has no
fractional index, and in each of the three straddle configurations; when it
does return an event with present bound keys, the fresh index lies strictly
between them (above a lone `cellBefore` key; below a lone `cellAfter` key
that has a non-zero digit). In a crowded gap it instead propagates the
`No string exists between` error rather than returning an event (see the
counterexample). -/
theorem C8_move_null_and_bounds
    (cellA : CellReference) (cbA caA : Option CellReference) (actorA : Option String)
    (jA : JitterStep)
    (cellB b1 a1 : CellReference) (ciB pB qB : Str) (actorB : Option String)
    (jB : JitterStep)
    (cellC a2 : CellReference) (ciC qC : Str) (actorC : Option String) (jC : JitterStep)
    (cellD b2 : CellReference) (ciD pD : Str) (actorD : Option String) (jD : JitterStep)
    (cellE b3 a3 : CellReference) (pE qE : Str) (actorE : Option String) (jE : JitterStep)
    (evE : CellMoved2)
    (cellF b4 : CellReference) (pF : Str) (actorF : Option String) (jF : JitterStep)
    (evF : CellMoved2)
    (cellG a5 : CellReference) (qG : Str) (actorG : Option String) (jG : JitterStep)
    (evG : CellMoved2)
    (hA : cellA.fractionalIndex = none)
    (hBci : cellB.fractionalIndex = some ciB)
    (hBp : optKey (some b1) = some pB) (hBq : optKey (some a1) = some qB)
    (hBlo : strLtB pB ciB = true) (hBhi : strLtB ciB qB = true)
    (hCci : cellC.fractionalIndex = some ciC)
    (hCq : optKey (some a2) = some qC) (hChi : strLtB ciC qC = true)
    (hDci : cellD.fractionalIndex = some ciD)
    (hDp : optKey (some b2) = some pD) (hDlo : strLtB pD ciD = true)
    (hEp : optKey (some b3) = some pE) (hEq : optKey (some a3) = some qE)
    (hE : moveCellBetween cellE (some b3) (some a3) actorE jE = .ok (some evE))
    (hFp : optKey (some b4) = some pF)
    (hF : moveCellBetween cellF (some b4) none actorF jF = .ok (some evF))
    (hGq : optKey (some a5) = some qG) (hGnz : hasNonZero qG = true)
    (hG : moveCellBetween cellG none (some a5) actorG jG = .ok (some evG)) :
    moveCellBetween cellA cbA caA actorA jA = .ok none ∧
      moveCellBetween cellB (some b1) (some a1) actorB jB = .ok none ∧
      moveCellBetween cellC none (some a2) actorC jC = .ok none ∧
      moveCellBetween cellD (some b2) none actorD jD = .ok none ∧
      (strLtB pE evE.fractionalIndex = true ∧ strLtB evE.fractionalIndex qE = true) ∧
      strLtB pF evF.fractionalIndex = true ∧
      strLtB evG.fractionalIndex qG = true := by
  refine ⟨?_, ?_, ?_, ?_, ?_, ?_, ?_⟩
  · simp [moveCellBetween, hA]
  · have hstr : moveStraddles ciB (some b1) (some a1) = true := by
      simp only [moveStraddles, jsGtKey, jsLtKey, hBp, hBq]
      rw [hBlo, hBhi]
      rfl
    simp [moveCellBetween, hBci, hstr]
  · have hstr : moveStraddles ciC none (some a2) = true := by
      simp only [moveStraddles, jsLtKey, hCq]
      rw [hChi]
    simp [moveCellBetween, hCci, hstr]
  · have hstr : moveStraddles ciD (some b2) none = true := by
      simp only [moveStraddles, jsGtKey, hDp]
      rw [hDlo]
    simp [moveCellBetween, hDci, hstr]
  · unfold moveCellBetween at hE
    cases hci : cellE.fractionalIndex with
    | none => simp only [hci] at hE; cases hE
    | some ci =>
        simp only [hci] at hE
        split at hE
        · cases hE
        · split at hE
          · cases hE
          · rw [hEp, hEq] at hE
            cases hfib : fractionalIndexBetween (some pE) (some qE) jE with
            | error e => rw [hfib, except_bind_err] at hE; cases hE
            | ok idx =>
                rw [hfib] at hE
                simp only [except_bind_ok, except_pure, Except.ok.injEq,
                  Option.some.injEq] at hE
                subst hE
                exact fractionalIndexBetween_both (optKey_ne_nil hEp)
                  (optKey_ne_nil hEq) hfib
  · unfold moveCellBetween at hF
    cases hci : cellF.fractionalIndex with
    | none => simp only [hci] at hF; cases hF
    | some ci =>
        simp only [hci] at hF
        split at hF
        · cases hF
        · split at hF
          · cases hF
          · rw [hFp] at hF
            cases hfib : fractionalIndexBetween (some pF) (optKey none) jF with
            | error e => rw [hfib, except_bind_err] at hF; cases hF
            | ok idx =>
                rw [hfib] at hF
                simp only [except_bind_ok, except_pure, Except.ok.injEq,
                  Option.some.injEq] at hF
                subst hF
                exact fractionalIndexBetween_lower hfib
  · unfold moveCellBetween at hG
    cases hci : cellG.fractionalIndex with
    | none => simp only [hci] at hG; cases hG
    | some ci =>
        simp only [hci] at hG
        split at hG
        · cases hG
        · split at hG
          · cases hG
          · rw [hGq] at hG
            cases hfib : fractionalIndexBetween (optKey none) (some qG) jG with
            | error e => rw [hfib, except_bind_err] at hG; cases hG
            | ok idx =>
                rw [hfib] at hG
                simp only [except_bind_ok, except_pure, Except.ok.injEq,
                  Option.some.injEq] at hG
                subst hG
                exact fractionalIndexBetween_upper hGnz hfib

/-- C8 counterexample: with bounds `"a"` and `"a0"` (a crowded gap) and a
cell currently at `"z"`, `moveCellBetween` neither returns an event nor
`null`: it propagates the `No string exists between` error. -/
theorem C8_counterexample :
    moveCellBetween ⟨"c9", some ['z'], "code"⟩ (some ⟨"b1", some ['a'], "code"⟩)
        (some ⟨"b2", some ['a', '0'], "code"⟩) none ⟨false, 0⟩ =
      .error .emptyInterval ∧
      (.error .emptyInterval : Except Err (Option CellMoved2)) ≠ .ok none := by
  constructor
  · rfl
  · decide

theorem C8_witness :
    moveCellBetween ⟨"x", none, "code"⟩ none none none ⟨false, 0⟩ = .ok none ∧
      moveCellBetween ⟨"y", some ['b'], "code"⟩ (some ⟨"b1", some ['a'], "code"⟩)
        (some ⟨"a1", some ['c'], "code"⟩) none ⟨false, 0⟩ = .ok none ∧
      moveCellBetween ⟨"z", some ['a'], "code"⟩ none (some ⟨"a2", some ['c'], "code"⟩)
        none ⟨false, 0⟩ = .ok none ∧
      moveCellBetween ⟨"w", some ['c'], "code"⟩ (some ⟨"b2", some ['a'], "code"⟩) none
        none ⟨false, 0⟩ = .ok none ∧
      (strLtB ['a'] (CellMoved2.fractionalIndex ⟨"e", ['b'], none⟩) = true ∧
        strLtB (CellMoved2.fractionalIndex ⟨"e", ['b'], none⟩) ['c'] = true) ∧
      strLtB ['b'] (CellMoved2.fractionalIndex ⟨"f", ['c'], none⟩) = true ∧
      strLtB (CellMoved2.fractionalIndex ⟨"g", ['5'], none⟩) ['b'] = true :=
  C8_move_null_and_bounds
    ⟨"x", none, "code"⟩ none none none ⟨false, 0⟩
    ⟨"y", some ['b'], "code"⟩ ⟨"b1", some ['a'], "code"⟩ ⟨"a1", some ['c'], "code"⟩
    ['b'] ['a'] ['c'] none ⟨false, 0⟩
    ⟨"z", some ['a'], "code"⟩ ⟨"a2", some ['c'], "code"⟩ ['a'] ['c'] none ⟨false, 0⟩
    ⟨"w", some ['c'], "code"⟩ ⟨"b2", some ['a'], "code"⟩ ['c'] ['a'] none ⟨false, 0⟩
    ⟨"e", some ['x'], "code"⟩ ⟨"b3", some ['a'], "code"⟩ ⟨"a3", some ['c'], "code"⟩
    ['a'] ['c'] none ⟨false, 0⟩ ⟨"e", ['b'], none⟩
    ⟨"f", some ['a'], "code"⟩ ⟨"b4", some ['b'], "code"⟩ ['b'] none ⟨false, 0⟩
    ⟨"f", ['c'], none⟩
    ⟨"g", some ['c'], "code"⟩ ⟨"a5", some ['b'], "code"⟩ ['b'] none ⟨false, 0⟩
    ⟨"g", ['5'], none⟩
    (by rfl) (by rfl) (by rfl) (by rfl) (by decide) (by decide)
    (by rfl) (by rfl) (by decide)
    (by rfl) (by rfl) (by decide)
    (by rfl) (by rfl) (by rfl)
    (by rfl) (by rfl)
    (by rfl) (by decide) (by rfl)
